import Mathlib

/-!
# Blitz GPU backend kernels: a shallow embedding

The kernels of `src/backend/gpu_backend_common-inl.h` are embedded as functions on
buffers of exact rationals.  A call either yields its result or stops with a `Fault`:
a failed `CHECK_EQ`/`CHECK_NE`, an access outside a buffer, or an integer division
by zero.  The kernels that call `exp` or the safe logarithm are embedded a second time
as templates over the element type (namespace `Generic`) and read over the real numbers;
the logistic kernel is also read at the rounded arithmetic of `float` and `double`.
-/

namespace Blitz

/-- The ways a backend call can stop without a result: a failed `CHECK_*` assertion,
an access outside a buffer, an integer division (or remainder) by zero. -/
inductive Fault where
  | check
  | bounds
  | divzero
  deriving DecidableEq, Repr

/-- Element type of the tensors; arithmetic is exact. -/
abbrev DType := ℚ

/-- Result of a backend call. -/
abbrev Run (α : Type) := Except Fault α

/-- Modelled from the spec: the tensor class (its declaration is not among the sources).
A tensor has a shape, a buffer and a row-major/column-major flag. -/
structure GPUTensor where
  shape : List Nat
  data : List DType
  row_major : Bool
  deriving DecidableEq, Repr

/-- Modelled from the spec: `size()`, the total element count, is the product of the
shape entries. -/
def GPUTensor.size (t : GPUTensor) : Nat := t.shape.prod

/-- Modelled from the spec: the tensor invariant `data.length == size`. -/
def GPUTensor.WF (t : GPUTensor) : Prop := t.data.length = t.size

instance (t : GPUTensor) : Decidable t.WF :=
  inferInstanceAs (Decidable (t.data.length = t.size))

/-- Modelled from the spec: a tensor constructed from a shape is zero-initialised. -/
def GPUTensor.zeros (shape : List Nat) : GPUTensor :=
  { shape := shape, data := List.replicate shape.prod 0, row_major := true }

/-- The expression `t->shape()[0]`. -/
def shape0 (t : GPUTensor) : Run Nat :=
  match t.shape with
  | [] => .error .bounds
  | d :: _ => .ok d

/-- Unsigned integer division `a / b` of `size_t` values. -/
def udiv (a b : Nat) : Run Nat :=
  if b = 0 then .error .divzero else .ok (a / b)

/-- Unsigned integer remainder `a % b` of `size_t` values. -/
def umod (a b : Nat) : Run Nat :=
  if b = 0 then .error .divzero else .ok (a % b)

/-- The assertion `CHECK_EQ(a, b)`: fatal when the two differ. -/
def CHECK_EQ (a b : Nat) : Run Unit :=
  if a = b then .ok () else .error .check

/-- The assertion `CHECK_NE(a, b)`: fatal when the two agree. -/
def CHECK_NE (a b : Nat) : Run Unit :=
  if a = b then .error .check else .ok ()

/-- Read `buf[i]`. -/
def rd (buf : List DType) (i : Nat) : Run DType :=
  match buf[i]? with
  | some v => .ok v
  | none => .error .bounds

/-- Write `buf[i] = v`. -/
def wr (buf : List DType) (i : Nat) (v : DType) : Run (List DType) :=
  if i < buf.length then .ok (buf.set i v) else .error .bounds

/-- The loop `for (size_t j = lo; j < hi; ++j) body`. -/
def forLoop {σ : Type} (lo : Nat) : Nat → (Nat → σ → Run σ) → σ → Run σ
  | 0, _, s => .ok s
  | hi + 1, body, s =>
    if lo ≤ hi then do
      let s' ← forLoop lo hi body s
      body hi s'
    else .ok s

/-- Modelled from the spec: `BLITZ_CUDA_LOOP(i, n)` (the macro is not among the sources)
runs its body once for every index `i < n`; the workers are independent, and the
indices are visited here in increasing order. -/
def cudaLoop {σ : Type} (n : Nat) (body : Nat → σ → Run σ) (s : σ) : Run σ :=
  forLoop 0 n body s

/-- Modelled from the spec: `thrust::reduce(p, p + n)` adds up the elements of a buffer. -/
def reduce (buf : List DType) : DType := buf.sum

/-! ## Rectified linear unit -/

/-- Kernel `GPURectlinApply`; the state is the pair of the (read-only) input buffer and
the output buffer. -/
def GPURectlinApply (size : Nat) (compare_value slope : DType)
    (mem : List DType × List DType) : Run (List DType × List DType) :=
  cudaLoop size (fun i st => do
    let x ← rd st.1 i
    let greater := if x > compare_value then x else compare_value
    let less := if x ≤ compare_value then slope * x else slope * compare_value
    let out ← wr st.2 i (greater + less)
    pure (st.1, out)) mem

/-- `Backend<GPUTensor, DType>::RectlinApplyFunc`; returns the input and the output
tensor as they are after the call. -/
def RectlinApplyFunc (input : GPUTensor) (slope : DType) (output : GPUTensor) :
    Run (GPUTensor × GPUTensor) := do
  CHECK_EQ input.size output.size
  let compara_value : DType := 0
  let mem ← GPURectlinApply input.size compara_value slope (input.data, output.data)
  pure ({ input with data := mem.1 }, { output with data := mem.2 })

/-- Kernel `GPURectlinDerivative`. -/
def GPURectlinDerivative (input : List DType) (size : Nat) (compare_value slope : DType)
    (output : List DType) : Run (List DType) :=
  cudaLoop size (fun i out => do
    let x ← rd input i
    let greater : DType := if x > compare_value then 1 else 0
    let less : DType := if x ≤ compare_value then slope else 0
    let g ← rd out i
    wr out i ((greater + less) * g)) output

/-- `Backend<GPUTensor, DType>::RectlinDerivativeFunc`. -/
def RectlinDerivativeFunc (input : GPUTensor) (slope : DType) (output : GPUTensor) :
    Run GPUTensor := do
  CHECK_EQ input.size output.size
  let compara_value : DType := 0
  let out ← GPURectlinDerivative input.data input.size compara_value slope output.data
  pure { output with data := out }

/-! ## Cross entropy -/

/-- Kernel `GPUCrossEntropyBinaryApply`; `BlitzGPUSafeLog` is not among the sources and
is the parameter `safeLog`. -/
def GPUCrossEntropyBinaryApply (safeLog : DType → DType) (input target : List DType)
    (size : Nat) (sum : List DType) : Run (List DType) :=
  cudaLoop size (fun i sum => do
    let safe_input := safeLog (← rd input i)
    let safe_inverse_input := safeLog (1 - (← rd input i))
    let acc ← rd sum i
    let t ← rd target i
    wr sum i (acc + (-safe_input * t - safe_inverse_input * (1 - t)))) sum

/-- `Backend<GPUTensor, DType>::CrossEntropyBinaryApplyFunc`. -/
def CrossEntropyBinaryApplyFunc (safeLog : DType → DType) (input target : GPUTensor) :
    Run DType := do
  let sum := GPUTensor.zeros input.shape
  let acc ← GPUCrossEntropyBinaryApply safeLog input.data target.data input.size sum.data
  let loss := reduce acc
  pure (loss / ((← shape0 input) : DType))

/-- Kernel `GPUCrossEntropyMultiApply`. -/
def GPUCrossEntropyMultiApply (safeLog : DType → DType) (input target : List DType)
    (size : Nat) (sum : List DType) : Run (List DType) :=
  cudaLoop size (fun i sum => do
    let x ← rd input i
    let t ← rd target i
    wr sum i (safeLog x * t)) sum

/-- `Backend<GPUTensor, DType>::CrossEntropyMultiApplyFunc`. -/
def CrossEntropyMultiApplyFunc (safeLog : DType → DType) (input target : GPUTensor) :
    Run DType := do
  CHECK_EQ input.size target.size
  let sum := GPUTensor.zeros input.shape
  let acc ← GPUCrossEntropyMultiApply safeLog input.data target.data input.size sum.data
  let loss := reduce acc
  pure (loss / ((← shape0 input) : DType))

/-! ## Bias -/

/-- Kernel `GPUBiasForward`. -/
def GPUBiasForward (input bias : List DType) (num_sample size : Nat)
    (output : List DType) : Run (List DType) :=
  cudaLoop size (fun i out => do
    let dim_index ← umod size num_sample
    let x ← rd input i
    let b ← rd bias dim_index
    wr out i (x + b)) output

/-- `Backend<GPUTensor, DType>::BiasForwardFunc`. -/
def BiasForwardFunc (input bias output : GPUTensor) : Run GPUTensor := do
  CHECK_EQ input.size output.size
  let num_sample ← shape0 input
  let out ← GPUBiasForward input.data bias.data num_sample input.size output.data
  pure { output with data := out }

/-- Kernel `GPUBiasBackwardUpdate`. -/
def GPUBiasBackwardUpdate (input : List DType) (num_sample dim : Nat)
    (update : List DType) : Run (List DType) :=
  cudaLoop dim (fun i upd =>
    forLoop 0 num_sample (fun j upd => do
      let u ← rd upd i
      let x ← rd input (j * dim + i)
      wr upd i (u + x)) upd) update

/-- `Backend<GPUTensor, DType>::BiasBackwardUpdateFunc`. -/
def BiasBackwardUpdateFunc (input update : GPUTensor) : Run GPUTensor := do
  let num_sample ← shape0 input
  let dim ← udiv input.size (← shape0 input)
  let upd ← GPUBiasBackwardUpdate input.data num_sample dim update.data
  pure { update with data := upd }

/-! ## Gradient descent -/

/-- The three buffers the gradient-descent kernel mutates. -/
structure SGDMem where
  weight : List DType
  gradient : List DType
  velocity : List DType
  deriving DecidableEq, Repr

/-- Kernel `GPUGradientdescent`. -/
def GPUGradientdescent (momentum_coef learning_rate decay : DType) (batch_size : Nat)
    (size : Nat) (mem : SGDMem) : Run SGDMem :=
  cudaLoop size (fun i m => do
    let gradient ← wr m.gradient i ((← rd m.gradient i) / (batch_size : DType))
    let velocity ← wr m.velocity i
      ((← rd m.velocity i) * momentum_coef - learning_rate * (← rd gradient i)
        + decay * (← rd m.weight i))
    let weight ← wr m.weight i ((← rd m.weight i) + (← rd velocity i))
    pure { weight := weight, gradient := gradient, velocity := velocity }) mem

/-- `Backend<GPUTensor, DType>::GradientdescentFunc`; returns the weight, gradient and
velocity tensors as they are after the call. -/
def GradientdescentFunc (momentum_coef learning_rate decay : DType) (batch_size : Nat)
    (weight gradient velocity : GPUTensor) : Run (GPUTensor × GPUTensor × GPUTensor) := do
  CHECK_EQ weight.size gradient.size
  CHECK_EQ gradient.size velocity.size
  let m ← GPUGradientdescent momentum_coef learning_rate decay batch_size gradient.size
    { weight := weight.data, gradient := gradient.data, velocity := velocity.data }
  pure ({ weight with data := m.weight }, { gradient with data := m.gradient },
    { velocity with data := m.velocity })

/-! ## Matrix multiply dispatch -/

/-- Type of the multiply primitives `BlitzGPUGemm` and `BlitzSassGemm` (not among the
sources): `gemm transa transb M N K A B C alpha beta` yields the new contents of `C`. -/
abbrev Gemm :=
  Bool → Bool → Nat → Nat → Nat → List DType → List DType → List DType →
    DType → DType → Run (List DType)

/-- `Backend<GPUTensor, DType>::MatrixDotFunc`, with the two multiply primitives as
parameters. -/
def MatrixDotFunc (BlitzGPUGemm BlitzSassGemm : Gemm) (left right : GPUTensor)
    (transa transb : Bool) (alpha beta : DType) (output : GPUTensor) (kernel : String) :
    Run GPUTensor := do
  let gpu_transa := if left.row_major then transa else !transa
  let gpu_transb := if right.row_major then transb else !transb
  let dim_left ← (if gpu_transa then (do udiv left.size (← shape0 left))
    else shape0 left)
  let dim_right ← (if gpu_transb then shape0 right
    else (do udiv right.size (← shape0 right)))
  let dim_common_left ← (if gpu_transa then shape0 left
    else (do udiv left.size (← shape0 left)))
  let dim_common_right ← (if gpu_transb then (do udiv right.size (← shape0 right))
    else shape0 right)
  CHECK_EQ dim_common_left dim_common_right
  CHECK_NE dim_left 0
  CHECK_NE dim_common_right 0
  CHECK_NE dim_right 0
  if kernel == "blas" then do
    let out ← BlitzGPUGemm gpu_transa gpu_transb dim_left dim_right dim_common_left
      left.data right.data output.data alpha beta
    pure { output with data := out }
  else if kernel == "asm" then do
    let out ← BlitzSassGemm gpu_transa gpu_transb dim_left dim_right dim_common_left
      left.data right.data output.data alpha beta
    pure { output with data := out }
  else pure output

/-- Modelled from the spec: a multiply primitive computing
`C = alpha * op(A) * op(B) + beta * C` on row-major buffers, where `op(A)` is `M x K`,
`op(B)` is `K x N` and `C` is `M x N`. -/
def refGemm : Gemm := fun transa transb M N K A B C alpha beta =>
  if A.length = M * K ∧ B.length = K * N ∧ C.length = M * N then
    .ok ((List.range (M * N)).map (fun idx =>
      let i := idx / N
      let j := idx % N
      alpha * ((List.range K).map (fun k =>
          (if transa then A.getD (k * M + i) 0 else A.getD (i * K + k) 0)
            * (if transb then B.getD (j * K + k) 0 else B.getD (k * N + j) 0))).sum
        + beta * C.getD idx 0))
  else .error .bounds

/-! ## Classification accuracy -/

/-- Kernel `GPUEvaluateClass`. -/
def GPUEvaluateClass (output target : List DType) (dim size : Nat)
    (correct : List DType) : Run (List DType) :=
  cudaLoop size (fun i correct => do
    let max0 ← rd output (i * dim)
    let (_, max_index) ← forLoop 1 dim (fun j (st : DType × Nat) => do
      let v ← rd output (i * dim + j)
      if st.1 < v then pure (v, j) else pure st) (max0, 0)
    let t ← rd target (i * dim + max_index)
    if t = (1 : DType) then wr correct i 1 else pure correct) correct

/-- `Backend<GPUTensor, DType>::EvaluateClassifyFunc`. -/
def EvaluateClassifyFunc (output target : GPUTensor) : Run DType := do
  let batch_size ← shape0 output
  let dim ← udiv output.size batch_size
  let correct := GPUTensor.zeros [batch_size]
  let c ← GPUEvaluateClass output.data target.data dim batch_size correct.data
  pure (reduce c / (batch_size : DType))

/-! ## Random masks -/

namespace Generic

/-- Modelled from the spec: the tensor class (its declaration is not among the sources)
at an arbitrary element type. -/
structure GPUTensor (α : Type) where
  shape : List Nat
  data : List α
  row_major : Bool

/-- Modelled from the spec: `size()` is the product of the shape entries. -/
def GPUTensor.size {α : Type} (t : GPUTensor α) : Nat := t.shape.prod

/-- Modelled from the spec: the tensor invariant `data.length == size`. -/
def GPUTensor.WF {α : Type} (t : GPUTensor α) : Prop := t.data.length = t.size

instance {α : Type} (t : GPUTensor α) : Decidable t.WF :=
  inferInstanceAs (Decidable (t.data.length = t.size))

/-- Modelled from the spec: a tensor constructed from a shape is zero-initialised. -/
def GPUTensor.zeros {α : Type} [Zero α] (shape : List Nat) : GPUTensor α :=
  { shape := shape, data := List.replicate shape.prod 0, row_major := true }

/-- The expression `t->shape()[0]`. -/
def shape0 {α : Type} (t : GPUTensor α) : Run Nat :=
  match t.shape with
  | [] => .error .bounds
  | d :: _ => .ok d

/-- Read `buf[i]`. -/
def rd {α : Type} (buf : List α) (i : Nat) : Run α :=
  match buf[i]? with
  | some v => .ok v
  | none => .error .bounds

/-- Write `buf[i] = v`. -/
def wr {α : Type} (buf : List α) (i : Nat) (v : α) : Run (List α) :=
  if i < buf.length then .ok (buf.set i v) else .error .bounds

/-- Modelled from the spec: `thrust::reduce(p, p + n)` adds up the elements of a buffer. -/
def reduce {α : Type} [Field α] (buf : List α) : α := buf.sum

/-- Kernel `GPUSoftmaxApply`; the device function `exp` is a parameter. -/
def GPUSoftmaxApply {α : Type} [Field α] (exp : α → α) (input : List α)
    (num_sample dim : Nat) (output : List α) : Run (List α) :=
  cudaLoop num_sample (fun i out => do
    let st ← forLoop 0 dim (fun j (st : List α × α) => do
      let index := i * dim + j
      let out ← wr st.1 index (exp (← rd input index))
      pure (out, st.2 + (← rd out index))) (out, 0)
    forLoop 0 dim (fun j out => do
      wr out (i * dim + j) ((← rd out (i * dim + j)) / st.2)) st.1) output

/-- `Backend<GPUTensor, DType>::SoftmaxApplyFunc`. -/
def SoftmaxApplyFunc {α : Type} [Field α] (exp : α → α) (input output : GPUTensor α) :
    Run (GPUTensor α) := do
  CHECK_EQ input.size output.size
  let num_sample ← shape0 input
  let dim ← udiv input.size num_sample
  let out ← GPUSoftmaxApply exp input.data num_sample dim output.data
  pure { output with data := out }

/-- Kernel `GPULogisticApply`; the device function `exp` is a parameter, and the element
type only has to provide `1`, negation, addition and division. -/
def GPULogisticApply {α : Type} [One α] [Neg α] [Add α] [Div α] (exp : α → α)
    (input : List α) (size : Nat) (output : List α) : Run (List α) :=
  cudaLoop size (fun i out => do
    wr out i (1 / (exp (-(← rd input i)) + 1))) output

/-- `Backend<GPUTensor, DType>::LogisticApplyFunc`. -/
def LogisticApplyFunc {α : Type} [One α] [Neg α] [Add α] [Div α] (exp : α → α)
    (input output : GPUTensor α) : Run (GPUTensor α) := do
  CHECK_EQ input.size output.size
  let out ← GPULogisticApply exp input.data input.size output.data
  pure { output with data := out }

/-- Kernel `GPUCrossEntropyBinaryApply`; `BlitzGPUSafeLog` is not among the sources and
is the parameter `safeLog`. -/
def GPUCrossEntropyBinaryApply {α : Type} [Field α] (safeLog : α → α)
    (input target : List α) (size : Nat) (sum : List α) : Run (List α) :=
  cudaLoop size (fun i sum => do
    let safe_input := safeLog (← rd input i)
    let safe_inverse_input := safeLog (1 - (← rd input i))
    let acc ← rd sum i
    let t ← rd target i
    wr sum i (acc + (-safe_input * t - safe_inverse_input * (1 - t)))) sum

/-- `Backend<GPUTensor, DType>::CrossEntropyBinaryApplyFunc`. -/
def CrossEntropyBinaryApplyFunc {α : Type} [Field α] (safeLog : α → α)
    (input target : GPUTensor α) : Run α := do
  let sum : GPUTensor α := GPUTensor.zeros input.shape
  let acc ← GPUCrossEntropyBinaryApply safeLog input.data target.data input.size sum.data
  let loss := reduce acc
  pure (loss / (((← shape0 input) : Nat) : α))

end Generic

/-! ## Binary floating-point element types

The element types `float` and `double`: numbers that are rounded after every operation. -/

/-- Rounding to the nearest integer, a tie going to the even one. -/
def roundTiesEven {K : Type} [LinearOrderedField K] [FloorRing K] (x : K) : ℤ :=
  if 2 * Int.fract x < 1 then ⌊x⌋
  else if 1 < 2 * Int.fract x then ⌈x⌉
  else if ⌊x⌋ % 2 = 0 then ⌊x⌋ else ⌈x⌉

/-- Rounding of `x` to the nearest binary floating-point number with `t` fraction bits
(`t = 23` for `float`, `t = 52` for `double`), ties to even.  The exponent range is not
bounded: overflow to infinity, underflow to zero and NaN are not represented. -/
def roundFloat {K : Type} [LinearOrderedField K] [FloorRing K] (t : Nat) (x : K) : K :=
  if x = 0 then 0
  else (roundTiesEven (x / (2 : K) ^ (Int.log 2 |x| - (t : ℤ))) : K)
    * (2 : K) ^ (Int.log 2 |x| - (t : ℤ))

/-- A floating-point number with `t` fraction bits, carried as its value in `K`; every
arithmetic operation rounds the exact result with `roundFloat`.  Infinities and NaN are
not represented, so a quotient by zero carries no meaning here. -/
structure BinaryFloat (t : Nat) (K : Type) where
  val : K

instance {t : Nat} {K : Type} [LinearOrderedField K] [FloorRing K] : One (BinaryFloat t K) :=
  ⟨⟨1⟩⟩

instance {t : Nat} {K : Type} [LinearOrderedField K] [FloorRing K] : Neg (BinaryFloat t K) :=
  ⟨fun a => ⟨-a.val⟩⟩

instance {t : Nat} {K : Type} [LinearOrderedField K] [FloorRing K] : Add (BinaryFloat t K) :=
  ⟨fun a b => ⟨roundFloat t (a.val + b.val)⟩⟩

instance {t : Nat} {K : Type} [LinearOrderedField K] [FloorRing K] : Div (BinaryFloat t K) :=
  ⟨fun a b => ⟨roundFloat t (a.val / b.val)⟩⟩

/-- A library function on floating-point numbers that returns the rounding of the exact
function `f`; used for the device function `exp`. -/
def BinaryFloat.rounded {t : Nat} {K : Type} [LinearOrderedField K] [FloorRing K]
    (f : K → K) (x : BinaryFloat t K) : BinaryFloat t K :=
  ⟨roundFloat t (f x.val)⟩

/-! ## The monad of backend calls and the loop rule -/

@[simp] theorem run_ok_bind {α β : Type} (a : α) (f : α → Run β) :
    (Except.ok a >>= f) = f a := rfl

@[simp] theorem run_error_bind {α β : Type} (e : Fault) (f : α → Run β) :
    ((Except.error e : Run α) >>= f) = Except.error e := rfl

@[simp] theorem run_pure {α : Type} (a : α) : (pure a : Run α) = Except.ok a := rfl

theorem rd_ok {buf : List DType} {i : Nat} {v : DType} (h : buf[i]? = some v) :
    rd buf i = .ok v := by
  simp [rd, h]

theorem wr_ok {buf : List DType} {i : Nat} (v : DType) (h : i < buf.length) :
    wr buf i v = .ok (buf.set i v) := by
  simp [wr, h]

theorem CHECK_EQ_ok {a b : Nat} (h : a = b) : CHECK_EQ a b = .ok () := by
  simp [CHECK_EQ, h]

theorem CHECK_NE_ok {a b : Nat} (h : a ≠ b) : CHECK_NE a b = .ok () := by
  simp [CHECK_NE, h]

theorem udiv_ok {a b : Nat} (h : 0 < b) : udiv a b = .ok (a / b) := by
  simp [udiv, Nat.pos_iff_ne_zero.mp h]

theorem set_same {l : List DType} {i : Nat} {a : DType} (h : l[i]? = some a) :
    l.set i a = l := by
  apply List.ext_getElem?
  intro j
  by_cases hji : i = j
  · subst hji
    rw [List.getElem?_set_self (List.getElem?_eq_some.mp h).1, h]
  · rw [List.getElem?_set_ne hji]

/-- Loop rule: an invariant that holds on entry and is carried by every iteration of
the body (which must return) holds when the loop returns, and the loop does return. -/
theorem forLoop_inv {σ : Type} (P : Nat → σ → Prop) (lo hi : Nat)
    (body : Nat → σ → Run σ) (s0 : σ) (hle : lo ≤ hi) (h0 : P lo s0)
    (hstep : ∀ i s, lo ≤ i → i < hi → P i s → ∃ s', body i s = .ok s' ∧ P (i + 1) s') :
    ∃ s, forLoop lo hi body s0 = .ok s ∧ P hi s := by
  induction hi with
  | zero =>
    have : lo = 0 := Nat.le_zero.mp hle
    subst this
    exact ⟨s0, rfl, h0⟩
  | succ hi ih =>
    by_cases h : lo ≤ hi
    · obtain ⟨s, hs, hP⟩ := ih h (fun i s hi1 hi2 => hstep i s hi1 (Nat.lt_succ_of_lt hi2))
      obtain ⟨s', hs', hP'⟩ := hstep hi s h (Nat.lt_succ_self hi) hP
      refine ⟨s', ?_, hP'⟩
      simp [forLoop, h, hs, hs']
    · have : lo = hi + 1 := by omega
      subst this
      exact ⟨s0, by simp [forLoop], h0⟩

/-- Loop rule with a postcondition implied by the invariant at exit. -/
theorem forLoop_post {σ : Type} (P : Nat → σ → Prop) (Q : σ → Prop) (lo hi : Nat)
    (body : Nat → σ → Run σ) (s0 : σ) (hle : lo ≤ hi) (h0 : P lo s0)
    (hstep : ∀ i s, lo ≤ i → i < hi → P i s → ∃ s', body i s = .ok s' ∧ P (i + 1) s')
    (hQ : ∀ s, P hi s → Q s) :
    ∃ s, forLoop lo hi body s0 = .ok s ∧ Q s := by
  obtain ⟨s, hs, hP⟩ := forLoop_inv P lo hi body s0 hle h0 hstep
  exact ⟨s, hs, hQ s hP⟩

/-- Loop rule for a kernel that rewrites element `i` of its buffer in iteration `i`. -/
theorem cudaLoop_elementwise (F : Nat → DType → DType) (body : Nat → List DType → Run (List DType))
    (n : Nat) (out0 : List DType) (hn : n ≤ out0.length)
    (hbody : ∀ i out g, i < n → out.length = out0.length → out0[i]? = some g →
      out[i]? = some g → body i out = .ok (out.set i (F i g))) :
    ∃ out, cudaLoop n body out0 = .ok out ∧ out.length = out0.length ∧
      (∀ j g, j < n → out0[j]? = some g → out[j]? = some (F j g)) ∧
      (∀ j, n ≤ j → out[j]? = out0[j]?) := by
  have key := forLoop_inv
    (fun k (out : List DType) => out.length = out0.length ∧
      (∀ j g, j < k → out0[j]? = some g → out[j]? = some (F j g)) ∧
      (∀ j, k ≤ j → out[j]? = out0[j]?))
    0 n body out0 (Nat.zero_le n) ⟨rfl, by intro j g hj; omega, fun _ _ => rfl⟩
    (by
      intro i out _ hi ⟨hlen, hdone, hrest⟩
      have hi0 : i < out0.length := lt_of_lt_of_le hi hn
      have hg0 : out0[i]? = some out0[i] := List.getElem?_eq_getElem hi0
      have hg : out[i]? = some out0[i] := by rw [hrest i le_rfl]; exact hg0
      refine ⟨out.set i (F i out0[i]), hbody i out _ hi hlen hg0 hg, by simp [hlen], ?_, ?_⟩
      · intro j g hj hjg
        by_cases hji : j = i
        · subst hji
          rw [hg0] at hjg
          cases hjg
          simp [List.getElem?_set, hlen, hi0]
        · rw [List.getElem?_set_ne (Ne.symm hji)]
          exact hdone j g (by omega) hjg
      · intro j hj
        rw [List.getElem?_set_ne (by omega)]
        exact hrest j (by omega))
  simpa [cudaLoop] using key

/-! ## Rectified linear unit: results -/

/-- The kernel `GPURectlinDerivative` returns, and multiplies every element of the
output buffer by the factor selected by the input element. -/
theorem GPURectlinDerivative_spec (input output : List DType) (slope : DType)
    (h : input.length = output.length) :
    ∃ res, GPURectlinDerivative input input.length 0 slope output = .ok res ∧
      res.length = output.length ∧
      ∀ (i : Nat) (x g : DType), input[i]? = some x → output[i]? = some g →
        res[i]? = some (if 0 < x then g else slope * g) := by
  obtain ⟨res, hres, hlen, hpt, -⟩ := cudaLoop_elementwise
    (fun i g => ((if input.getD i 0 > 0 then (1 : DType) else 0)
      + (if input.getD i 0 ≤ 0 then slope else 0)) * g)
    (fun i out => do
      let x ← rd input i
      let greater : DType := if x > 0 then 1 else 0
      let less : DType := if x ≤ 0 then slope else 0
      let g ← rd out i
      wr out i ((greater + less) * g))
    input.length output (le_of_eq h)
    (by
      intro i out g hi hlen _ hg
      have hx : input[i]? = some (input.getD i 0) := by
        simp [List.getD, List.getElem?_eq_getElem hi]
      have hio : i < out.length := by omega
      simp [rd_ok hx, rd_ok hg, wr_ok _ hio])
  refine ⟨res, hres, hlen, ?_⟩
  intro i x g hx hg
  have hi : i < input.length := (List.getElem?_eq_some.mp hx).1
  have hxd : input.getD i 0 = x := by simp [List.getD, hx]
  rw [hpt i g hi hg, hxd]
  by_cases hpos : 0 < x
  · simp [hpos, not_le.mpr hpos]
  · simp [hpos, not_lt.mp hpos]

theorem rectlin_value (x slope : DType) :
    (if x > 0 then x else 0) + (if x ≤ 0 then slope * x else slope * 0)
      = max x 0 + slope * min x 0 := by
  by_cases hpos : 0 < x
  · simp [hpos, not_le.mpr hpos, max_eq_left hpos.le, min_eq_right hpos.le]
  · have hle : x ≤ 0 := not_lt.mp hpos
    simp [hpos, hle, max_eq_right hle, min_eq_left hle]

/-- The kernel `GPURectlinApply` returns, leaves the input buffer as it was and writes
the leaky rectifier of every input element. -/
theorem GPURectlinApply_spec (input output : List DType) (slope : DType)
    (h : input.length = output.length) :
    ∃ res, GPURectlinApply input.length 0 slope (input, output) = .ok res ∧
      res.1 = input ∧ res.2.length = output.length ∧
      ∀ (i : Nat) (x : DType), input[i]? = some x →
        res.2[i]? = some (max x 0 + slope * min x 0) := by
  obtain ⟨res, hres, hfst, hlen, hpt⟩ := forLoop_inv
    (fun k (st : List DType × List DType) => st.1 = input ∧ st.2.length = output.length ∧
      ∀ (j : Nat) (x : DType), j < k → input[j]? = some x →
        st.2[j]? = some (max x 0 + slope * min x 0))
    0 input.length
    (fun i st => do
      let x ← rd st.1 i
      let greater := if x > 0 then x else 0
      let less := if x ≤ 0 then slope * x else slope * 0
      let out ← wr st.2 i (greater + less)
      pure (st.1, out))
    (input, output) (Nat.zero_le _) ⟨rfl, rfl, by intro j x hj; omega⟩
    (by
      rintro i ⟨inp, out⟩ - hi ⟨hfst, hlen, hdone⟩
      simp only at hfst hlen hdone
      subst hfst
      have hx : inp[i]? = some inp[i] := List.getElem?_eq_getElem hi
      have hio : i < out.length := by omega
      refine ⟨(inp, out.set i (max inp[i] 0 + slope * min inp[i] 0)), ?_, rfl, by simp [hlen], ?_⟩
      · simp only [rd_ok hx, wr_ok _ hio, run_ok_bind, run_pure, rectlin_value]
      · intro j x hj hjx
        by_cases hji : j = i
        · subst hji
          rw [hx] at hjx
          cases hjx
          simp [List.getElem?_set, hio]
        · simp only [List.getElem?_set_ne (Ne.symm hji)]
          exact hdone j x (by omega) hjx)
  refine ⟨res, hres, hfst, hlen, ?_⟩
  intro i x hx
  exact hpt i x (List.getElem?_eq_some.mp hx).1 hx

/-- Claim C5: `RectlinApply` is the leaky rectifier.  For tensors of equal size the
call returns; every output element is `max(input[i], 0) + slope * min(input[i], 0)`,
whatever the sign of the slope, and the input tensor is as it was before the call. -/
theorem RectlinApply_leaky_relu (input output : GPUTensor) (slope : DType)
    (hin : input.WF) (hout : output.WF) (hsz : input.size = output.size) :
    ∃ res, RectlinApplyFunc input slope output = .ok res ∧
      res.1 = input ∧ res.2.shape = output.shape ∧
      res.2.data.length = output.data.length ∧
      ∀ (i : Nat) (x : DType), input.data[i]? = some x →
        res.2.data[i]? = some (max x 0 + slope * min x 0) := by
  have hlen : input.data.length = output.data.length := by
    rw [hin, hout, hsz]
  obtain ⟨res, hres, hfst, hl, hpt⟩ := GPURectlinApply_spec input.data output.data slope hlen
  rw [hin] at hres
  refine ⟨({ input with data := res.1 }, { output with data := res.2 }), ?_, ?_, rfl, hl, hpt⟩
  · simp [RectlinApplyFunc, CHECK_EQ_ok hsz, hres]
  · simp [hfst]

/-- Instance of claim C5 on the input `[-2, 0, 3]` with the negative slope `-1/2`. -/
theorem RectlinApply_leaky_relu_witness :
    ∃ res, RectlinApplyFunc ⟨[3], [-2, 0, 3], true⟩ (-1 / 2) ⟨[3], [9, 9, 9], true⟩ = .ok res ∧
      res.1 = ⟨[3], [-2, 0, 3], true⟩ ∧ res.2.shape = [3] ∧
      res.2.data.length = 3 ∧
      ∀ (i : Nat) (x : DType), ([-2, 0, 3] : List DType)[i]? = some x →
        res.2.data[i]? = some (max x 0 + (-1 / 2) * min x 0) :=
  RectlinApply_leaky_relu ⟨[3], [-2, 0, 3], true⟩ ⟨[3], [9, 9, 9], true⟩ (-1 / 2)
    (by decide) (by decide) (by decide)

/-- Claim C6: `RectlinDerivative` is an in-place chain-rule multiply.  For tensors of
equal size the call returns; where the input element is positive the output element
keeps its prior value `g`, and where it is zero or negative it becomes `slope * g`.
On a buffer of ones the result is `1` where the input is positive, `slope` elsewhere. -/
theorem RectlinDerivative_chain_rule (input output : GPUTensor) (slope : DType)
    (hin : input.WF) (hout : output.WF) (hsz : input.size = output.size) :
    ∃ res, RectlinDerivativeFunc input slope output = .ok res ∧
      res.shape = output.shape ∧ res.data.length = output.data.length ∧
      (∀ (i : Nat) (x g : DType), input.data[i]? = some x → output.data[i]? = some g →
        (0 < x → res.data[i]? = some g) ∧ (x ≤ 0 → res.data[i]? = some (slope * g))) ∧
      ((∀ g ∈ output.data, g = 1) →
        ∀ (i : Nat) (x : DType), input.data[i]? = some x →
          (0 < x → res.data[i]? = some 1) ∧ (x ≤ 0 → res.data[i]? = some slope)) := by
  have hlen : input.data.length = output.data.length := by
    rw [hin, hout, hsz]
  obtain ⟨res, hres, hl, hpt⟩ := GPURectlinDerivative_spec input.data output.data slope hlen
  rw [hin] at hres
  have hmain : ∀ (i : Nat) (x g : DType), input.data[i]? = some x →
      output.data[i]? = some g →
      (0 < x → res[i]? = some g) ∧ (x ≤ 0 → res[i]? = some (slope * g)) := by
    intro i x g hx hg
    have := hpt i x g hx hg
    constructor
    · intro hpos
      simpa [hpos] using this
    · intro hle
      simpa [not_lt.mpr hle] using this
  refine ⟨{ output with data := res }, ?_, rfl, hl, hmain, ?_⟩
  · simp [RectlinDerivativeFunc, CHECK_EQ_ok hsz, hres]
  · intro hones i x hx
    have hi : i < output.data.length := by
      rw [← hlen]; exact (List.getElem?_eq_some.mp hx).1
    have hg : output.data[i]? = some output.data[i] := List.getElem?_eq_getElem hi
    have h1 : output.data[i] = 1 := hones _ (List.getElem_mem hi)
    have := hmain i x _ hx hg
    simpa [h1] using this

/-- Instance of claim C6 on the input `[-2, 0, 3]` and a buffer of ones. -/
theorem RectlinDerivative_chain_rule_witness :
    ∃ res, RectlinDerivativeFunc ⟨[3], [-2, 0, 3], true⟩ (1 / 2) ⟨[3], [1, 1, 1], true⟩
        = .ok res ∧
      res.shape = [3] ∧ res.data.length = 3 ∧
      (∀ (i : Nat) (x g : DType), ([-2, 0, 3] : List DType)[i]? = some x →
        ([1, 1, 1] : List DType)[i]? = some g →
        (0 < x → res.data[i]? = some g) ∧ (x ≤ 0 → res.data[i]? = some (1 / 2 * g))) ∧
      ((∀ g ∈ ([1, 1, 1] : List DType), g = 1) →
        ∀ (i : Nat) (x : DType), ([-2, 0, 3] : List DType)[i]? = some x →
          (0 < x → res.data[i]? = some 1) ∧ (x ≤ 0 → res.data[i]? = some (1 / 2))) :=
  RectlinDerivative_chain_rule ⟨[3], [-2, 0, 3], true⟩ ⟨[3], [1, 1, 1], true⟩ (1 / 2)
    (by decide) (by decide) (by decide)

/-! ## Gradient descent: results -/

/-- The kernel `GPUGradientdescent` returns and performs the three updates at every
index, each from the values the buffers held before the call. -/
theorem GPUGradientdescent_spec (momentum_coef learning_rate decay : DType)
    (batch_size : Nat) (w g v : List DType)
    (hwg : w.length = g.length) (hgv : g.length = v.length) :
    ∃ m, GPUGradientdescent momentum_coef learning_rate decay batch_size g.length
        { weight := w, gradient := g, velocity := v } = .ok m ∧
      m.weight.length = w.length ∧ m.gradient.length = g.length ∧
      m.velocity.length = v.length ∧
      ∀ (i : Nat) (wi gi vi : DType), w[i]? = some wi → g[i]? = some gi → v[i]? = some vi →
        m.gradient[i]? = some (gi / batch_size) ∧
        m.velocity[i]? = some (vi * momentum_coef - learning_rate * (gi / batch_size)
          + decay * wi) ∧
        m.weight[i]? = some (wi + (vi * momentum_coef - learning_rate * (gi / batch_size)
          + decay * wi)) := by
  unfold GPUGradientdescent cudaLoop
  refine forLoop_post
    (fun k (m : SGDMem) =>
      (m.weight.length = w.length ∧ m.gradient.length = g.length ∧
        m.velocity.length = v.length) ∧
      (∀ (j : Nat) (wi gi vi : DType), j < k → w[j]? = some wi → g[j]? = some gi →
        v[j]? = some vi →
        m.gradient[j]? = some (gi / batch_size) ∧
        m.velocity[j]? = some (vi * momentum_coef - learning_rate * (gi / batch_size)
          + decay * wi) ∧
        m.weight[j]? = some (wi + (vi * momentum_coef - learning_rate * (gi / batch_size)
          + decay * wi))) ∧
      (∀ j : Nat, k ≤ j → m.weight[j]? = w[j]? ∧ m.gradient[j]? = g[j]? ∧
        m.velocity[j]? = v[j]?))
    _ 0 g.length _ _ (Nat.zero_le _)
    ⟨⟨rfl, rfl, rfl⟩, by intro j _ _ _ hj; omega, fun _ _ => ⟨rfl, rfl, rfl⟩⟩ ?_ ?_
  rotate_left
  · rintro m ⟨⟨hlw, hlg, hlv⟩, hdone, -⟩
    refine ⟨hlw, hlg, hlv, ?_⟩
    intro i wi gi vi hwi hgi hvi
    exact hdone i wi gi vi (List.getElem?_eq_some.mp hgi).1 hwi hgi hvi
  · rintro i ⟨mw, mg, mv⟩ - hi ⟨⟨hlw, hlg, hlv⟩, hdone, hrest⟩
    simp only at hlw hlg hlv hdone hrest
    obtain ⟨hrw, hrg, hrv⟩ := hrest i le_rfl
    have hiw : i < w.length := by omega
    have hiv : i < v.length := by omega
    rw [List.getElem?_eq_getElem hiw] at hrw
    rw [List.getElem?_eq_getElem hi] at hrg
    rw [List.getElem?_eq_getElem hiv] at hrv
    have hg2 : (mg.set i (g[i] / batch_size))[i]? = some (g[i] / batch_size) := by
      simp [List.getElem?_set, hlg, hi]
    have hv2 : (mv.set i (v[i] * momentum_coef - learning_rate * (g[i] / batch_size)
        + decay * w[i]))[i]? = some (v[i] * momentum_coef
          - learning_rate * (g[i] / batch_size) + decay * w[i]) := by
      simp [List.getElem?_set, hlv, hiv]
    refine ⟨SGDMem.mk
      (mw.set i (w[i] + (v[i] * momentum_coef - learning_rate * (g[i] / batch_size)
        + decay * w[i])))
      (mg.set i (g[i] / batch_size))
      (mv.set i (v[i] * momentum_coef - learning_rate * (g[i] / batch_size)
        + decay * w[i])), ?_, ⟨by simp [hlw], by simp [hlg], by simp [hlv]⟩, ?_, ?_⟩
    · simp only [rd_ok hrg, rd_ok hrv, rd_ok hrw, rd_ok hg2, rd_ok hv2, run_ok_bind,
        run_pure, wr_ok _ (show i < mg.length by omega),
        wr_ok _ (show i < mv.length by omega), wr_ok _ (show i < mw.length by omega)]
    · intro j wi gi vi hj hwj hgj hvj
      by_cases hji : j = i
      · subst hji
        rw [List.getElem?_eq_getElem hiw] at hwj
        rw [List.getElem?_eq_getElem hi] at hgj
        rw [List.getElem?_eq_getElem hiv] at hvj
        cases hwj; cases hgj; cases hvj
        simp [List.getElem?_set, hlw, hlg, hlv, hi, hiw, hiv]
      · simp only [List.getElem?_set_ne (Ne.symm hji)]
        exact hdone j wi gi vi (by omega) hwj hgj hvj
    · intro j hj
      simp only [List.getElem?_set_ne (show i ≠ j by omega)]
      exact hrest j (by omega)

/-- Claim C2: `GradientDescentUpdate`.  For weight, gradient and velocity tensors of
equal size and a positive batch size the call returns, and at every index:
the gradient is divided by the batch size; the velocity becomes
`velocity * momentum_coef - learning_rate * gradient' + decay * weight`, with the decay
term added and taken from the old weight; the weight becomes `weight + velocity'`.
With `momentum_coef = 0` and `decay = 0` the new weight is
`weight - learning_rate * (gradient / batch_size)`. -/
theorem GradientDescentUpdate_spec (momentum_coef learning_rate decay : DType)
    (batch_size : Nat) (weight gradient velocity : GPUTensor)
    (hw : weight.WF) (hg : gradient.WF) (hv : velocity.WF)
    (hwg : weight.size = gradient.size) (hgv : gradient.size = velocity.size)
    (_hb : 0 < batch_size) :
    ∃ w' g' v', GradientdescentFunc momentum_coef learning_rate decay batch_size
        weight gradient velocity = .ok (w', g', v') ∧
      (w'.shape = weight.shape ∧ g'.shape = gradient.shape ∧ v'.shape = velocity.shape) ∧
      (w'.data.length = weight.data.length ∧ g'.data.length = gradient.data.length ∧
        v'.data.length = velocity.data.length) ∧
      (∀ (i : Nat) (wi gi vi : DType), weight.data[i]? = some wi →
        gradient.data[i]? = some gi → velocity.data[i]? = some vi →
        g'.data[i]? = some (gi / batch_size) ∧
        v'.data[i]? = some (vi * momentum_coef - learning_rate * (gi / batch_size)
          + decay * wi) ∧
        w'.data[i]? = some (wi + (vi * momentum_coef - learning_rate * (gi / batch_size)
          + decay * wi))) ∧
      (momentum_coef = 0 → decay = 0 →
        ∀ (i : Nat) (wi gi vi : DType), weight.data[i]? = some wi →
          gradient.data[i]? = some gi → velocity.data[i]? = some vi →
          w'.data[i]? = some (wi - learning_rate * (gi / batch_size))) := by
  have h1 : weight.data.length = gradient.data.length := by rw [hw, hg, hwg]
  have h2 : gradient.data.length = velocity.data.length := by rw [hg, hv, hgv]
  obtain ⟨m, hm, hlw, hlg, hlv, hpt⟩ := GPUGradientdescent_spec momentum_coef learning_rate
    decay batch_size weight.data gradient.data velocity.data h1 h2
  rw [hg] at hm
  refine ⟨{ weight with data := m.weight }, { gradient with data := m.gradient },
    { velocity with data := m.velocity }, ?_, ⟨rfl, rfl, rfl⟩, ⟨hlw, hlg, hlv⟩, hpt, ?_⟩
  · simp [GradientdescentFunc, CHECK_EQ_ok hwg, CHECK_EQ_ok hgv, hm]
  · intro hm0 hd0 i wi gi vi hwi hgi hvi
    have := (hpt i wi gi vi hwi hgi hvi).2.2
    rw [this, hm0, hd0]
    congr 1
    ring

/-- Instance of claim C2 with momentum `1/2`, learning rate `1/4`, decay `1/10` and
batch size `2` on buffers of two elements. -/
theorem GradientDescentUpdate_spec_witness :
    ∃ w' g' v', GradientdescentFunc (1 / 2) (1 / 4) (1 / 10) 2
        ⟨[2], [1, 2], true⟩ ⟨[2], [4, 8], true⟩ ⟨[2], [6, 10], true⟩ = .ok (w', g', v') ∧
      (w'.shape = [2] ∧ g'.shape = [2] ∧ v'.shape = [2]) ∧
      (w'.data.length = 2 ∧ g'.data.length = 2 ∧ v'.data.length = 2) ∧
      (∀ (i : Nat) (wi gi vi : DType), ([1, 2] : List DType)[i]? = some wi →
        ([4, 8] : List DType)[i]? = some gi → ([6, 10] : List DType)[i]? = some vi →
        g'.data[i]? = some (gi / (2 : Nat)) ∧
        v'.data[i]? = some (vi * (1 / 2) - 1 / 4 * (gi / (2 : Nat)) + 1 / 10 * wi) ∧
        w'.data[i]? = some (wi + (vi * (1 / 2) - 1 / 4 * (gi / (2 : Nat)) + 1 / 10 * wi))) ∧
      ((1 / 2 : DType) = 0 → (1 / 10 : DType) = 0 →
        ∀ (i : Nat) (wi gi vi : DType), ([1, 2] : List DType)[i]? = some wi →
          ([4, 8] : List DType)[i]? = some gi → ([6, 10] : List DType)[i]? = some vi →
          w'.data[i]? = some (wi - 1 / 4 * (gi / (2 : Nat)))) :=
  GradientDescentUpdate_spec (1 / 2) (1 / 4) (1 / 10) 2
    ⟨[2], [1, 2], true⟩ ⟨[2], [4, 8], true⟩ ⟨[2], [6, 10], true⟩
    (by decide) (by decide) (by decide) (by decide) (by decide) (by decide)

/-! ## Binary cross entropy: results -/

/-- The kernel `GPUCrossEntropyBinaryApply`, started on a zeroed accumulator, returns
the buffer of the per-element losses. -/
theorem GPUCrossEntropyBinaryApply_spec (safeLog : DType → DType) (input target : List DType)
    (h : target.length = input.length) :
    GPUCrossEntropyBinaryApply safeLog input target input.length
        (List.replicate input.length 0)
      = .ok (List.zipWith
          (fun x t => -safeLog x * t - safeLog (1 - x) * (1 - t)) input target) := by
  obtain ⟨res, hres, hlen, hpt, -⟩ := cudaLoop_elementwise
    (fun i acc => acc + (-safeLog (input.getD i 0) * target.getD i 0
      - safeLog (1 - input.getD i 0) * (1 - target.getD i 0)))
    (fun i sum => do
      let safe_input := safeLog (← rd input i)
      let safe_inverse_input := safeLog (1 - (← rd input i))
      let acc ← rd sum i
      let t ← rd target i
      wr sum i (acc + (-safe_input * t - safe_inverse_input * (1 - t))))
    input.length (List.replicate input.length 0) (by simp)
    (by
      intro i out g hi hlen _ hg
      have hx : input[i]? = some (input.getD i 0) := by
        simp [List.getD, List.getElem?_eq_getElem hi]
      have hit : i < target.length := by omega
      have ht : target[i]? = some (target.getD i 0) := by
        simp [List.getD, List.getElem?_eq_getElem hit]
      have hio : i < out.length := by simpa [hlen] using hi
      simp [rd_ok hx, rd_ok hg, rd_ok ht, wr_ok _ hio])
  have hlist : res = List.zipWith
      (fun x t => -safeLog x * t - safeLog (1 - x) * (1 - t)) input target := by
    apply List.ext_getElem?
    intro j
    by_cases hj : j < input.length
    · have hjt : j < target.length := by omega
      rw [hpt j 0 hj (by simp [hj]), List.getElem?_zipWith,
        List.getElem?_eq_getElem hj, List.getElem?_eq_getElem hjt]
      simp [List.getD, List.getElem?_eq_getElem hj, List.getElem?_eq_getElem hjt]
    · rw [List.getElem?_eq_none (by simp at hlen; omega),
        List.getElem?_eq_none (by simp [List.length_zipWith]; omega)]
  rw [← hlist]
  exact hres

/-- Claim C7: `CrossEntropyBinaryApply` returns the sum over all elements of
`-L(input[i]) * target[i] - L(1 - input[i]) * (1 - target[i])`, accumulated from zero,
divided by the batch size `shape[0]`; `L` is the safe logarithm. -/
theorem CrossEntropyBinaryApply_spec (safeLog : DType → DType) (input target : GPUTensor)
    (N : Nat) (rest : List Nat) (hin : input.WF) (ht : target.WF)
    (hshape : target.shape = input.shape) (hs : input.shape = N :: rest) (_hN : 1 ≤ N) :
    CrossEntropyBinaryApplyFunc safeLog input target
      = .ok ((List.zipWith (fun x t => -safeLog x * t - safeLog (1 - x) * (1 - t))
          input.data target.data).sum / (N : DType)) := by
  have hlen : target.data.length = input.data.length := by
    rw [hin, ht, GPUTensor.size, GPUTensor.size, hshape]
  have hk := GPUCrossEntropyBinaryApply_spec safeLog input.data target.data hlen
  rw [hin] at hk
  have hz : (GPUTensor.zeros input.shape).data = List.replicate input.size 0 := rfl
  have h0 : shape0 input = .ok N := by simp [shape0, hs]
  simp only [CrossEntropyBinaryApplyFunc, hz, hk, h0, run_ok_bind, run_pure, reduce]

/-- Instance of claim C7 on a tensor of shape `[2, 2]`: four elements are summed and
the sum is divided by `2`. -/
theorem CrossEntropyBinaryApply_spec_witness :
    CrossEntropyBinaryApplyFunc (fun x => x - 1)
        ⟨[2, 2], [1 / 2, 1 / 4, 3 / 4, 1], true⟩ ⟨[2, 2], [1, 0, 1, 0], true⟩
      = .ok ((List.zipWith (fun x t => -(fun x => x - 1) x * t
            - (fun x => x - 1) (1 - x) * (1 - t))
          [1 / 2, 1 / 4, 3 / 4, 1] [1, 0, 1, 0]).sum / ((2 : Nat) : DType)) :=
  CrossEntropyBinaryApply_spec (fun x => x - 1)
    ⟨[2, 2], [1 / 2, 1 / 4, 3 / 4, 1], true⟩ ⟨[2, 2], [1, 0, 1, 0], true⟩ 2 [2]
    (by decide) (by decide) (by decide) (by decide) (by decide)

/-! ## Bias: results -/

/-- Claim C1, evaluated on the code: on the input `[[10, 20, 30], [40, 50, 60]]` and the
bias `[1, 2, 3]` the kernel index `size % num_sample` is `6 % 2 = 0`, so `bias[0] = 1`
is added to every element; the broadcast `output[n*3 + j] = input[n*3 + j] + bias[j]`
asks for `22` at `n = 0, j = 1`, where the code leaves `21`. -/
theorem BiasForward_adds_first_bias_entry :
    BiasForwardFunc ⟨[2, 3], [10, 20, 30, 40, 50, 60], true⟩ ⟨[3], [1, 2, 3], true⟩
        ⟨[2, 3], [0, 0, 0, 0, 0, 0], true⟩
      = .ok ⟨[2, 3], [11, 21, 31, 41, 51, 61], true⟩ ∧
    ([10, 20, 30, 40, 50, 60] : List DType).getD (0 * 3 + 1) 0
      + ([1, 2, 3] : List DType).getD 1 0 = 22 := by
  constructor
  · simp [BiasForwardFunc, GPUBiasForward, cudaLoop, forLoop, CHECK_EQ, GPUTensor.size,
      shape0, umod, rd, wr]
    norm_num
  · norm_num

/-- The inner loop of `GPUBiasBackwardUpdate` adds column `i` of the input to
`update[i]`. -/
theorem biasBackward_column (input : List DType) (N dim i : Nat) (upd : List DType)
    (u : DType) (hu : upd[i]? = some u) (hin : ∀ j, j < N → j * dim + i < input.length) :
    forLoop 0 N (fun j upd => do
        let u ← rd upd i
        let x ← rd input (j * dim + i)
        wr upd i (u + x)) upd
      = .ok (upd.set i (u + ∑ n ∈ Finset.range N, input.getD (n * dim + i) 0)) := by
  have hi : i < upd.length := (List.getElem?_eq_some.mp hu).1
  obtain ⟨res, hres, hP⟩ := forLoop_inv
    (fun k (st : List DType) =>
      st = upd.set i (u + ∑ n ∈ Finset.range k, input.getD (n * dim + i) 0))
    0 N (fun j upd => do
        let u ← rd upd i
        let x ← rd input (j * dim + i)
        wr upd i (u + x)) upd (Nat.zero_le _)
    (by
      simp only [Finset.range_zero, Finset.sum_empty, add_zero]
      exact (set_same hu).symm)
    (by
      intro j st _ hj hst
      subst hst
      have h1 : (upd.set i (u + ∑ n ∈ Finset.range j, input.getD (n * dim + i) 0))[i]?
          = some (u + ∑ n ∈ Finset.range j, input.getD (n * dim + i) 0) := by
        simp [List.getElem?_set, hi]
      have h2 : input[j * dim + i]? = some (input.getD (j * dim + i) 0) := by
        simp [List.getD, List.getElem?_eq_getElem (hin j hj)]
      refine ⟨_, ?_, rfl⟩
      simp only [rd_ok h1, rd_ok h2, run_ok_bind,
        wr_ok _ (show i < (upd.set i _).length by simpa using hi)]
      simp [Finset.sum_range_succ, add_assoc])
  rw [hres, hP]

/-- The kernel `GPUBiasBackwardUpdate` returns and adds to every `update[j]` the sum of
column `j` of the input. -/
theorem GPUBiasBackwardUpdate_spec (input update : List DType) (N dim : Nat)
    (hin : input.length = N * dim) (hu : update.length = dim) :
    ∃ res, GPUBiasBackwardUpdate input N dim update = .ok res ∧
      res.length = update.length ∧
      ∀ (j : Nat) (u : DType), update[j]? = some u →
        res[j]? = some (u + ∑ n ∈ Finset.range N, input.getD (n * dim + j) 0) := by
  obtain ⟨res, hres, hlen, hpt, -⟩ := cudaLoop_elementwise
    (fun i u => u + ∑ n ∈ Finset.range N, input.getD (n * dim + i) 0)
    (fun i upd =>
      forLoop 0 N (fun j upd => do
        let u ← rd upd i
        let x ← rd input (j * dim + i)
        wr upd i (u + x)) upd)
    dim update (le_of_eq hu.symm)
    (by
      intro i out g hi _ _ hg
      refine biasBackward_column input N dim i out g hg ?_
      intro j hj
      rw [hin]
      calc j * dim + i < j * dim + dim := by omega
        _ = (j + 1) * dim := by ring
        _ ≤ N * dim := Nat.mul_le_mul_right dim hj)
  refine ⟨res, hres, hlen, ?_⟩
  intro j u hju
  exact hpt j u (by rw [← hu]; exact (List.getElem?_eq_some.mp hju).1) hju

/-- Claim C3 as stated fails: with the update buffer holding `1` before the call and the
input `[[2]]`, the column sum is `2` but `update[0]` ends as `3`; and on an input of
shape `[0, 1]` the computation of `dim` divides by zero. -/
theorem BiasBackwardUpdate_not_pure_column_sum :
    (BiasBackwardUpdateFunc ⟨[1, 1], [2], true⟩ ⟨[1], [1], true⟩ = .ok ⟨[1], [3], true⟩ ∧
      ∑ n ∈ Finset.range 1, ([2] : List DType).getD (n * 1 + 0) 0 = 2) ∧
    BiasBackwardUpdateFunc ⟨[0, 1], [], true⟩ ⟨[1], [0], true⟩ = .error .divzero := by
  refine ⟨⟨?_, ?_⟩, ?_⟩
  · simp [BiasBackwardUpdateFunc, GPUBiasBackwardUpdate, cudaLoop, forLoop, GPUTensor.size,
      shape0, udiv, rd, wr]
    norm_num
  · simp
  · simp [BiasBackwardUpdateFunc, shape0, udiv]

/-- Claim C3, amended: for an input of shape `[N, dim]` with `N >= 1` and an update
buffer of length `dim`, `BiasBackwardUpdate` returns and leaves in `update[j]` its
prior value plus the sum over `n < N` of `input[n*dim + j]`; on an update buffer that
held zeros this is the column sum. -/
theorem BiasBackwardUpdate_adds_column_sum (input update : GPUTensor) (N dim : Nat)
    (hin : input.WF) (hs : input.shape = [N, dim]) (hN : 1 ≤ N)
    (hu : update.data.length = dim) :
    ∃ res, BiasBackwardUpdateFunc input update = .ok res ∧
      res.shape = update.shape ∧ res.data.length = dim ∧
      (∀ (j : Nat) (u : DType), update.data[j]? = some u →
        res.data[j]? = some (u + ∑ n ∈ Finset.range N, input.data.getD (n * dim + j) 0)) ∧
      ((∀ u ∈ update.data, u = 0) → ∀ j : Nat, j < dim →
        res.data[j]? = some (∑ n ∈ Finset.range N, input.data.getD (n * dim + j) 0)) := by
  have hsize : input.size = N * dim := by simp [GPUTensor.size, hs]
  have hlen : input.data.length = N * dim := by rw [hin, hsize]
  obtain ⟨res, hres, hl, hpt⟩ := GPUBiasBackwardUpdate_spec input.data update.data N dim hlen hu
  have h0 : shape0 input = .ok N := by simp [shape0, hs]
  have hd : udiv input.size N = .ok dim := by
    rw [udiv_ok hN, hsize, Nat.mul_div_cancel_left dim hN]
  refine ⟨{ update with data := res }, ?_, rfl, by rw [hl, hu], hpt, ?_⟩
  · simp only [BiasBackwardUpdateFunc, h0, hd, hres, run_ok_bind, run_pure]
  · intro hz j hj
    have hju : j < update.data.length := by omega
    have h1 := hpt j _ (List.getElem?_eq_getElem hju)
    rw [hz _ (List.getElem_mem hju), zero_add] at h1
    exact h1

/-- Instance of the amended claim C3 on an input of shape `[2, 2]`. -/
theorem BiasBackwardUpdate_adds_column_sum_witness :
    ∃ res, BiasBackwardUpdateFunc ⟨[2, 2], [1, 2, 3, 4], true⟩ ⟨[2], [10, 0], true⟩
        = .ok res ∧
      res.shape = [2] ∧ res.data.length = 2 ∧
      (∀ (j : Nat) (u : DType), ([10, 0] : List DType)[j]? = some u →
        res.data[j]? = some (u + ∑ n ∈ Finset.range 2,
          ([1, 2, 3, 4] : List DType).getD (n * 2 + j) 0)) ∧
      ((∀ u ∈ ([10, 0] : List DType), u = 0) → ∀ j : Nat, j < 2 →
        res.data[j]? = some (∑ n ∈ Finset.range 2,
          ([1, 2, 3, 4] : List DType).getD (n * 2 + j) 0)) :=
  BiasBackwardUpdate_adds_column_sum ⟨[2, 2], [1, 2, 3, 4], true⟩ ⟨[2], [10, 0], true⟩ 2 2
    (by decide) (by decide) (by decide) (by decide)

/-! ## Size checks -/

/-- Claim C8, evaluated on the code: `CrossEntropyBinaryApplyFunc` has no `CHECK_EQ`.
With an input of one element and a target of two elements (sizes `1` and `2`) it
returns a loss, whereas `CrossEntropyMultiApplyFunc` aborts on the same arguments. -/
theorem CrossEntropyBinaryApply_no_size_check (safeLog : DType → DType) :
    GPUTensor.size ⟨[1], [1 / 2], true⟩ ≠ GPUTensor.size ⟨[2], [1 / 2, 1 / 2], true⟩ ∧
    CrossEntropyBinaryApplyFunc safeLog ⟨[1], [1 / 2], true⟩ ⟨[2], [1 / 2, 1 / 2], true⟩
      = .ok (-safeLog (1 / 2) * (1 / 2) - safeLog (1 - 1 / 2) * (1 - 1 / 2)) ∧
    CrossEntropyMultiApplyFunc safeLog ⟨[1], [1 / 2], true⟩ ⟨[2], [1 / 2, 1 / 2], true⟩
      = .error .check := by
  refine ⟨by decide, ?_, ?_⟩
  · simp [CrossEntropyBinaryApplyFunc, GPUCrossEntropyBinaryApply, cudaLoop, forLoop,
      GPUTensor.zeros, GPUTensor.size, shape0, rd, wr, reduce]
  · simp [CrossEntropyMultiApplyFunc, CHECK_EQ, GPUTensor.size]

/-! ## Classification accuracy: results -/

theorem sum_range_map (f : Nat → DType) (n : Nat) :
    ((List.range n).map f).sum = ∑ i ∈ Finset.range n, f i := by
  induction n with
  | zero => simp
  | succ n ih => simp [List.range_succ, Finset.sum_range_succ, ih]

/-- The inner loop of `GPUEvaluateClass` returns the smallest index attaining the
maximum of row `i`. -/
theorem evaluateClass_argmax (output : List DType) (dim i : Nat) (hd : 1 ≤ dim)
    (hin : ∀ j, j < dim → i * dim + j < output.length) :
    ∃ k, k < dim ∧
      forLoop 1 dim (fun j (st : DType × Nat) => do
          let v ← rd output (i * dim + j)
          if st.1 < v then pure (v, j) else pure st) (output.getD (i * dim) 0, 0)
        = .ok (output.getD (i * dim + k) 0, k) ∧
      (∀ j, j < dim → output.getD (i * dim + j) 0 ≤ output.getD (i * dim + k) 0) ∧
      (∀ j, j < k → output.getD (i * dim + j) 0 < output.getD (i * dim + k) 0) := by
  obtain ⟨st, hst, h1, h2, h3, h4⟩ := forLoop_inv
    (fun k (st : DType × Nat) => st.2 < k ∧ st.1 = output.getD (i * dim + st.2) 0 ∧
      (∀ j, j < k → output.getD (i * dim + j) 0 ≤ st.1) ∧
      (∀ j, j < st.2 → output.getD (i * dim + j) 0 < st.1))
    1 dim (fun j (st : DType × Nat) => do
          let v ← rd output (i * dim + j)
          if st.1 < v then pure (v, j) else pure st) (output.getD (i * dim) 0, 0) hd
    ⟨Nat.zero_lt_one, rfl, by
      intro j hj
      have : j = 0 := by omega
      subst this
      exact le_rfl, by intro j hj; omega⟩
    (by
      rintro j ⟨mx, mi⟩ hj1 hj ⟨h1, h2, h3, h4⟩
      simp only at h1 h2 h3 h4
      have hv : output[i * dim + j]? = some (output.getD (i * dim + j) 0) := by
        simp [List.getD, List.getElem?_eq_getElem (hin j hj)]
      by_cases hlt : mx < output.getD (i * dim + j) 0
      · refine ⟨(output.getD (i * dim + j) 0, j),
          by simp only [rd_ok hv, run_ok_bind, if_pos hlt, run_pure],
          Nat.lt_succ_self j, rfl, ?_, ?_⟩
        · intro l hl
          by_cases hlj : l = j
          · subst hlj; exact le_rfl
          · exact le_of_lt (lt_of_le_of_lt (h3 l (by omega)) hlt)
        · intro l hl
          exact lt_of_le_of_lt (h3 l hl) hlt
      · refine ⟨(mx, mi), by simp only [rd_ok hv, run_ok_bind, if_neg hlt, run_pure],
          Nat.lt_succ_of_lt h1, h2, ?_, h4⟩
        intro l hl
        by_cases hlj : l = j
        · subst hlj; exact not_lt.mp hlt
        · exact h3 l (by omega))
  obtain ⟨mx, mi⟩ := st
  simp only at h1 h2 h3 h4
  subst h2
  exact ⟨mi, h1, hst, h3, h4⟩

theorem row_index_lt {N dim n j : Nat} (hn : n < N) (hj : j < dim) :
    n * dim + j < N * dim := by
  calc n * dim + j < n * dim + dim := by omega
    _ = (n + 1) * dim := by ring
    _ ≤ N * dim := Nat.mul_le_mul_right dim hn

/-- The kernel `GPUEvaluateClass`, started on a zeroed buffer, returns and marks with
`1` exactly the rows whose target at the first index of the row maximum is `1`. -/
theorem GPUEvaluateClass_spec (output target : List DType) (N dim : Nat) (hd : 1 ≤ dim)
    (ho : output.length = N * dim) (ht : target.length = N * dim) :
    ∃ k : Nat → Nat,
      (∀ n, n < N → k n < dim ∧
        (∀ j, j < dim → output.getD (n * dim + j) 0 ≤ output.getD (n * dim + k n) 0) ∧
        (∀ j, j < k n → output.getD (n * dim + j) 0 < output.getD (n * dim + k n) 0)) ∧
      GPUEvaluateClass output target dim N (List.replicate N 0)
        = .ok ((List.range N).map
            (fun n => if target.getD (n * dim + k n) 0 = 1 then (1 : DType) else 0)) := by
  have hall : ∀ n, ∃ k, n < N → (k < dim ∧
      forLoop 1 dim (fun j (st : DType × Nat) => do
          let v ← rd output (n * dim + j)
          if st.1 < v then pure (v, j) else pure st) (output.getD (n * dim) 0, 0)
        = .ok (output.getD (n * dim + k) 0, k) ∧
      (∀ j, j < dim → output.getD (n * dim + j) 0 ≤ output.getD (n * dim + k) 0) ∧
      (∀ j, j < k → output.getD (n * dim + j) 0 < output.getD (n * dim + k) 0)) := by
    intro n
    by_cases hn : n < N
    · obtain ⟨k, hk⟩ := evaluateClass_argmax output dim n hd
        (fun j hj => by rw [ho]; exact row_index_lt hn hj)
      exact ⟨k, fun _ => hk⟩
    · exact ⟨0, fun h => absurd h hn⟩
  choose k hk using hall
  refine ⟨k, fun n hn => ⟨(hk n hn).1, (hk n hn).2.2⟩, ?_⟩
  obtain ⟨res, hres, hlen, hpt, -⟩ := cudaLoop_elementwise
    (fun i g => if target.getD (i * dim + k i) 0 = 1 then (1 : DType) else g)
    (fun i correct => do
      let max0 ← rd output (i * dim)
      let (_, max_index) ← forLoop 1 dim (fun j (st : DType × Nat) => do
        let v ← rd output (i * dim + j)
        if st.1 < v then pure (v, j) else pure st) (max0, 0)
      let t ← rd target (i * dim + max_index)
      if t = (1 : DType) then wr correct i 1 else pure correct)
    N (List.replicate N 0) (by simp)
    (by
      intro i out g hi hlen _ hg
      obtain ⟨hkd, hloop, -, -⟩ := hk i hi
      have h0 : output[i * dim]? = some (output.getD (i * dim) 0) := by
        have : i * dim < output.length := by
          rw [ho]; exact row_index_lt (j := 0) hi hd
        simp [List.getD, List.getElem?_eq_getElem this]
      have htg : target[i * dim + k i]? = some (target.getD (i * dim + k i) 0) := by
        have : i * dim + k i < target.length := by
          rw [ht]; exact row_index_lt hi hkd
        simp [List.getD, List.getElem?_eq_getElem this]
      have hio : i < out.length := by simpa [hlen] using hi
      simp only [rd_ok h0, run_ok_bind, hloop, rd_ok htg]
      by_cases h1 : target.getD (i * dim + k i) 0 = 1
      · simp only [if_pos h1, wr_ok _ hio]
      · simp only [if_neg h1, run_pure, set_same hg])
  have hlist : res = (List.range N).map
      (fun n => if target.getD (n * dim + k n) 0 = 1 then (1 : DType) else 0) := by
    apply List.ext_getElem?
    intro j
    by_cases hj : j < N
    · rw [hpt j 0 hj (by simp [hj]), List.getElem?_map, List.getElem?_range hj]
      rfl
    · rw [List.getElem?_eq_none (by simp at hlen; omega),
        List.getElem?_eq_none (by simp; omega)]
  rw [← hlist]
  exact hres

/-- Claim C4: `EvaluateClassify` on predictions and targets of shape `[N, dim]`,
`N >= 1`, `dim >= 1`, returns the number of rows `n` with `target[n, k n] = 1` divided
by `N`, where `k n` is the smallest index attaining the maximum of row `n` of the
predictions. -/
theorem EvaluateClassify_spec (output target : GPUTensor) (N dim : Nat)
    (ho : output.WF) (ht : target.WF)
    (hso : output.shape = [N, dim]) (hst : target.shape = [N, dim])
    (hN : 1 ≤ N) (hd : 1 ≤ dim) :
    ∃ k : Nat → Nat,
      (∀ n, n < N → k n < dim ∧
        (∀ j, j < dim →
          output.data.getD (n * dim + j) 0 ≤ output.data.getD (n * dim + k n) 0) ∧
        (∀ j, j < k n →
          output.data.getD (n * dim + j) 0 < output.data.getD (n * dim + k n) 0)) ∧
      EvaluateClassifyFunc output target
        = .ok ((((Finset.range N).filter
            (fun n => target.data.getD (n * dim + k n) 0 = 1)).card : DType) / (N : DType)) := by
  have hsize : output.size = N * dim := by simp [GPUTensor.size, hso]
  have hlo : output.data.length = N * dim := by rw [ho, hsize]
  have hlt : target.data.length = N * dim := by rw [ht]; simp [GPUTensor.size, hst]
  obtain ⟨k, hk, hres⟩ := GPUEvaluateClass_spec output.data target.data N dim hd hlo hlt
  refine ⟨k, hk, ?_⟩
  have h0 : shape0 output = .ok N := by simp [shape0, hso]
  have hdiv : udiv output.size N = .ok dim := by
    rw [udiv_ok hN, hsize, Nat.mul_div_cancel_left dim hN]
  have hz : (GPUTensor.zeros [N]).data = List.replicate N 0 := by simp [GPUTensor.zeros]
  simp only [EvaluateClassifyFunc, h0, hdiv, hz, hres, run_ok_bind, run_pure, reduce,
    sum_range_map, Finset.sum_boole]

/-- Instance of claim C4 on the predictions `[[1/10, 9/10], [8/10, 2/10]]`: with the
targets `[[0, 1], [1, 0]]` the accuracy is `1`, and with the second target row flipped
it is `1/2`. -/
theorem EvaluateClassify_spec_witness :
    (∃ k : Nat → Nat,
      (∀ n, n < 2 → k n < 2 ∧
        (∀ j, j < 2 → ([1 / 10, 9 / 10, 8 / 10, 2 / 10] : List DType).getD (n * 2 + j) 0
          ≤ ([1 / 10, 9 / 10, 8 / 10, 2 / 10] : List DType).getD (n * 2 + k n) 0) ∧
        (∀ j, j < k n → ([1 / 10, 9 / 10, 8 / 10, 2 / 10] : List DType).getD (n * 2 + j) 0
          < ([1 / 10, 9 / 10, 8 / 10, 2 / 10] : List DType).getD (n * 2 + k n) 0)) ∧
      EvaluateClassifyFunc ⟨[2, 2], [1 / 10, 9 / 10, 8 / 10, 2 / 10], true⟩
          ⟨[2, 2], [0, 1, 1, 0], true⟩
        = .ok ((((Finset.range 2).filter
            (fun n => ([0, 1, 1, 0] : List DType).getD (n * 2 + k n) 0 = 1)).card : DType)
              / ((2 : Nat) : DType))) ∧
    EvaluateClassifyFunc ⟨[2, 2], [1 / 10, 9 / 10, 8 / 10, 2 / 10], true⟩
        ⟨[2, 2], [0, 1, 1, 0], true⟩ = .ok 1 ∧
    EvaluateClassifyFunc ⟨[2, 2], [1 / 10, 9 / 10, 8 / 10, 2 / 10], true⟩
        ⟨[2, 2], [0, 1, 0, 1], true⟩ = .ok (1 / 2) := by
  refine ⟨EvaluateClassify_spec ⟨[2, 2], [1 / 10, 9 / 10, 8 / 10, 2 / 10], true⟩
    ⟨[2, 2], [0, 1, 1, 0], true⟩ 2 2 (by decide) (by decide) (by decide) (by decide)
    (by decide) (by decide), ?_, ?_⟩
  · simp [EvaluateClassifyFunc, GPUEvaluateClass, cudaLoop, forLoop, GPUTensor.zeros,
      GPUTensor.size, shape0, udiv, rd, wr, reduce]
    norm_num
  · simp [EvaluateClassifyFunc, GPUEvaluateClass, cudaLoop, forLoop, GPUTensor.zeros,
      GPUTensor.size, shape0, udiv, rd, wr, reduce]
    norm_num

/-! ## Matrix multiply dispatch: results -/

theorem gpu_trans_eq_xor (trans row_major : Bool) :
    (if row_major then trans else !trans) = xor trans (!row_major) := by
  cases row_major <;> cases trans <;> rfl

/-- When no check fails, `MatrixDotFunc` calls the primitive selected by the kernel name
on the effective flags and the dimensions derived from them. -/
theorem MatrixDotFunc_dispatch (gpuGemm sassGemm : Gemm) (left right output : GPUTensor)
    (transa transb : Bool) (alpha beta : DType) (sl sr : Nat) (restl restr : List Nat)
    (ea eb : Bool) (dl dr dc : Nat)
    (hl : left.shape = sl :: restl) (hr : right.shape = sr :: restr)
    (hsl : 0 < sl) (hsr : 0 < sr)
    (hea : ea = xor transa (!left.row_major)) (heb : eb = xor transb (!right.row_major))
    (hdl : dl = if ea then left.size / sl else sl)
    (hdr : dr = if eb then sr else right.size / sr)
    (hdc : dc = if ea then sl else left.size / sl)
    (hcommon : dc = if eb then right.size / sr else sr)
    (hl0 : dl ≠ 0) (hc0 : dc ≠ 0) (hr0 : dr ≠ 0) (kernel : String) :
    MatrixDotFunc gpuGemm sassGemm left right transa transb alpha beta output kernel
      = if kernel = "blas" then
          (gpuGemm ea eb dl dr dc left.data right.data output.data alpha beta).map
            (fun d => { output with data := d })
        else if kernel = "asm" then
          (sassGemm ea eb dl dr dc left.data right.data output.data alpha beta).map
            (fun d => { output with data := d })
        else .ok output := by
  have hfa : (if left.row_major then transa else !transa) = ea := by
    rw [hea]; exact gpu_trans_eq_xor _ _
  have hfb : (if right.row_major then transb else !transb) = eb := by
    rw [heb]; exact gpu_trans_eq_xor _ _
  have h0l : shape0 left = .ok sl := by simp [shape0, hl]
  have h0r : shape0 right = .ok sr := by simp [shape0, hr]
  have e1 : (if ea = true then (do udiv left.size (← shape0 left)) else shape0 left)
      = Except.ok dl := by
    rw [hdl]; cases ea <;> simp [h0l, udiv_ok hsl]
  have e2 : (if eb = true then shape0 right else (do udiv right.size (← shape0 right)))
      = Except.ok dr := by
    rw [hdr]; cases eb <;> simp [h0r, udiv_ok hsr]
  have e3 : (if ea = true then shape0 left else (do udiv left.size (← shape0 left)))
      = Except.ok dc := by
    rw [hdc]; cases ea <;> simp [h0l, udiv_ok hsl]
  have e4 : (if eb = true then (do udiv right.size (← shape0 right)) else shape0 right)
      = Except.ok dc := by
    rw [hcommon]; cases eb <;> simp [h0r, udiv_ok hsr]
  unfold MatrixDotFunc
  simp only [hfa, hfb, e1, e2, e3, e4, run_ok_bind, CHECK_EQ_ok rfl, CHECK_NE_ok hl0,
    CHECK_NE_ok hc0, CHECK_NE_ok hr0]
  by_cases hb : kernel = "blas"
  · subst hb
    simp only [beq_self_eq_true, if_true]
    cases gpuGemm ea eb dl dr dc left.data right.data output.data alpha beta <;> rfl
  · by_cases ha : kernel = "asm"
    · subst ha
      simp only [beq_iff_eq, hb, if_false, if_true]
      cases sassGemm ea eb dl dr dc left.data right.data output.data alpha beta <;> rfl
    · simp [hb, ha]

/-- The reference primitive with both flags off, `alpha = 1` and `beta = 0` writes the
matrix product. -/
theorem refGemm_product (M N K : Nat) (A B C : List DType)
    (hA : A.length = M * K) (hB : B.length = K * N) (hC : C.length = M * N) :
    ∃ res, refGemm false false M N K A B C 1 0 = .ok res ∧ res.length = M * N ∧
      ∀ i j : Nat, i < M → j < N →
        res[i * N + j]? = some (∑ k ∈ Finset.range K,
          A.getD (i * K + k) 0 * B.getD (k * N + j) 0) := by
  have hrun : refGemm false false M N K A B C 1 0
      = .ok ((List.range (M * N)).map (fun idx => ∑ k ∈ Finset.range K,
          A.getD (idx / N * K + k) 0 * B.getD (k * N + idx % N) 0)) := by
    simp [refGemm, hA, hB, hC, sum_range_map]
  refine ⟨_, hrun, by simp, ?_⟩
  intro i j hi hj
  have hidx : i * N + j < M * N := row_index_lt hi hj
  have hdiv : (i * N + j) / N = i := by
    rw [Nat.add_comm, Nat.add_mul_div_right _ _ (by omega), Nat.div_eq_of_lt hj, Nat.zero_add]
  have hmod : (i * N + j) % N = j := by
    rw [Nat.add_comm, Nat.add_mul_mod_self_right, Nat.mod_eq_of_lt hj]
  rw [List.getElem?_map, List.getElem?_range hidx]
  simp [hdiv, hmod]

/-- Claim C9: `MatrixDot` with `transa = transb = false` on a row-major `left` of shape
`[M, K]` and a row-major `right` of shape `[K, N]` (all extents at least `1`) calls the
primitive named by the kernel with the flags `(false, false)`, the dimensions
`(M, N, K)` and the caller's `alpha` and `beta`; with a primitive computing
`alpha * op(A) * op(B) + beta * C`, `alpha = 1` and `beta = 0`, the output is the
matrix product of `left` and `right`. -/
theorem MatrixDot_standard_product (gpuGemm sassGemm : Gemm)
    (left right output : GPUTensor) (M K N : Nat) (alpha beta : DType)
    (hlw : left.WF) (hrw : right.WF)
    (hl : left.shape = [M, K]) (hr : right.shape = [K, N])
    (hlr : left.row_major = true) (hrr : right.row_major = true)
    (hM : 1 ≤ M) (hK : 1 ≤ K) (hN : 1 ≤ N) :
    MatrixDotFunc gpuGemm sassGemm left right false false alpha beta output "blas"
        = (gpuGemm false false M N K left.data right.data output.data alpha beta).map
            (fun d => { output with data := d }) ∧
    MatrixDotFunc gpuGemm sassGemm left right false false alpha beta output "asm"
        = (sassGemm false false M N K left.data right.data output.data alpha beta).map
            (fun d => { output with data := d }) ∧
    (output.data.length = M * N → ∀ kernel : String, kernel = "blas" ∨ kernel = "asm" →
      ∃ res, MatrixDotFunc refGemm refGemm left right false false 1 0 output kernel
          = .ok res ∧
        res.shape = output.shape ∧ res.data.length = M * N ∧
        ∀ i j : Nat, i < M → j < N →
          res.data[i * N + j]? = some (∑ k ∈ Finset.range K,
            left.data.getD (i * K + k) 0 * right.data.getD (k * N + j) 0)) := by
  have hsl : left.size = M * K := by simp [GPUTensor.size, hl]
  have hsr : right.size = K * N := by simp [GPUTensor.size, hr]
  have hd : ∀ (g s : Gemm) (a b : DType) (kernel : String),
      MatrixDotFunc g s left right false false a b output kernel
        = if kernel = "blas" then
            (g false false M N K left.data right.data output.data a b).map
              (fun d => { output with data := d })
          else if kernel = "asm" then
            (s false false M N K left.data right.data output.data a b).map
              (fun d => { output with data := d })
          else .ok output := by
    intro g s a b kernel
    exact MatrixDotFunc_dispatch g s left right output false false a b M K [K] [N]
      false false M N K hl hr hM hK (by simp [hlr]) (by simp [hrr]) (by simp)
      (by simp [hsr, Nat.mul_div_cancel_left N hK])
      (by simp [hsl, Nat.mul_div_cancel_left K hM]) (by simp)
      (by omega) (by omega) (by omega) kernel
  refine ⟨by rw [hd]; simp, by rw [hd]; simp, ?_⟩
  intro hout kernel hk
  obtain ⟨res, hres, hlen, hpt⟩ := refGemm_product M N K left.data right.data output.data
    (by rw [hlw, hsl]) (by rw [hrw, hsr]) hout
  refine ⟨{ output with data := res }, ?_, rfl, hlen, hpt⟩
  rw [hd]
  rcases hk with rfl | rfl
  · simp [hres, Except.map]
  · simp [hres, Except.map]

/-- Instance of claim C9: `[[1, 2], [3, 4]]` times `[[5, 6], [7, 8]]` is
`[[19, 22], [43, 50]]`. -/
theorem MatrixDot_standard_product_witness :
    (MatrixDotFunc refGemm refGemm ⟨[2, 2], [1, 2, 3, 4], true⟩ ⟨[2, 2], [5, 6, 7, 8], true⟩
        false false 1 0 ⟨[2, 2], [0, 0, 0, 0], true⟩ "blas"
        = (refGemm false false 2 2 2 [1, 2, 3, 4] [5, 6, 7, 8] [0, 0, 0, 0] 1 0).map
            (fun d => { (⟨[2, 2], [0, 0, 0, 0], true⟩ : GPUTensor) with data := d }) ∧
    MatrixDotFunc refGemm refGemm ⟨[2, 2], [1, 2, 3, 4], true⟩ ⟨[2, 2], [5, 6, 7, 8], true⟩
        false false 1 0 ⟨[2, 2], [0, 0, 0, 0], true⟩ "asm"
        = (refGemm false false 2 2 2 [1, 2, 3, 4] [5, 6, 7, 8] [0, 0, 0, 0] 1 0).map
            (fun d => { (⟨[2, 2], [0, 0, 0, 0], true⟩ : GPUTensor) with data := d }) ∧
    (([0, 0, 0, 0] : List DType).length = 2 * 2 →
      ∀ kernel : String, kernel = "blas" ∨ kernel = "asm" →
      ∃ res, MatrixDotFunc refGemm refGemm ⟨[2, 2], [1, 2, 3, 4], true⟩
            ⟨[2, 2], [5, 6, 7, 8], true⟩ false false 1 0 ⟨[2, 2], [0, 0, 0, 0], true⟩ kernel
          = .ok res ∧
        res.shape = [2, 2] ∧ res.data.length = 2 * 2 ∧
        ∀ i j : Nat, i < 2 → j < 2 →
          res.data[i * 2 + j]? = some (∑ k ∈ Finset.range 2,
            ([1, 2, 3, 4] : List DType).getD (i * 2 + k) 0
              * ([5, 6, 7, 8] : List DType).getD (k * 2 + j) 0))) ∧
    MatrixDotFunc refGemm refGemm ⟨[2, 2], [1, 2, 3, 4], true⟩ ⟨[2, 2], [5, 6, 7, 8], true⟩
        false false 1 0 ⟨[2, 2], [0, 0, 0, 0], true⟩ "blas"
      = .ok ⟨[2, 2], [19, 22, 43, 50], true⟩ := by
  refine ⟨MatrixDot_standard_product refGemm refGemm ⟨[2, 2], [1, 2, 3, 4], true⟩
    ⟨[2, 2], [5, 6, 7, 8], true⟩ ⟨[2, 2], [0, 0, 0, 0], true⟩ 2 2 2 1 0
    (by decide) (by decide) (by decide) (by decide) (by decide) (by decide)
    (by decide) (by decide) (by decide), ?_⟩
  simp [MatrixDotFunc, refGemm, shape0, udiv, CHECK_EQ, CHECK_NE, GPUTensor.size,
    List.range_succ]
  norm_num

/-- Claim C10: `MatrixDot` reconciles layout and transposition by XOR.  Whenever the
checks pass, the flag handed to the multiply primitive for an operand is the caller's
flag XOR "the operand is column-major" (the caller's flag for a row-major operand, its
negation for a column-major one), and the dimensions handed over are taken from
`shape[0]` and `size / shape[0]` of each operand according to these effective flags. -/
theorem MatrixDot_xor_layout (gpuGemm sassGemm : Gemm) (left right output : GPUTensor)
    (transa transb : Bool) (alpha beta : DType) (sl sr : Nat) (restl restr : List Nat)
    (ea eb : Bool) (dl dr dc : Nat)
    (hl : left.shape = sl :: restl) (hr : right.shape = sr :: restr)
    (hsl : 0 < sl) (hsr : 0 < sr)
    (hea : ea = xor transa (!left.row_major)) (heb : eb = xor transb (!right.row_major))
    (hdl : dl = if ea then left.size / sl else sl)
    (hdr : dr = if eb then sr else right.size / sr)
    (hdc : dc = if ea then sl else left.size / sl)
    (hcommon : dc = if eb then right.size / sr else sr)
    (hl0 : dl ≠ 0) (hc0 : dc ≠ 0) (hr0 : dr ≠ 0) :
    MatrixDotFunc gpuGemm sassGemm left right transa transb alpha beta output "blas"
        = (gpuGemm ea eb dl dr dc left.data right.data output.data alpha beta).map
            (fun d => { output with data := d }) ∧
    MatrixDotFunc gpuGemm sassGemm left right transa transb alpha beta output "asm"
        = (sassGemm ea eb dl dr dc left.data right.data output.data alpha beta).map
            (fun d => { output with data := d }) ∧
    (left.row_major = true → ea = transa) ∧ (left.row_major = false → ea = !transa) ∧
    (right.row_major = true → eb = transb) ∧ (right.row_major = false → eb = !transb) := by
  have hd := MatrixDotFunc_dispatch gpuGemm sassGemm left right output transa transb
    alpha beta sl sr restl restr ea eb dl dr dc hl hr hsl hsr hea heb hdl hdr hdc hcommon
    hl0 hc0 hr0
  refine ⟨by rw [hd]; simp, by rw [hd]; simp, ?_, ?_, ?_, ?_⟩
  · intro h; rw [hea, h]; cases transa <;> rfl
  · intro h; rw [hea, h]; cases transa <;> rfl
  · intro h; rw [heb, h]; cases transb <;> rfl
  · intro h; rw [heb, h]; cases transb <;> rfl

/-- Instance of claim C10: a column-major `left` of shape `[2, 3]` and a row-major
`right` of shape `[2, 4]` with both caller flags off reach the primitive with the flags
`(true, false)` and the dimensions `(3, 4, 2)`. -/
theorem MatrixDot_xor_layout_witness :
    MatrixDotFunc refGemm refGemm ⟨[2, 3], [1, 2, 3, 4, 5, 6], false⟩
        ⟨[2, 4], [1, 0, 0, 0, 0, 1, 0, 0], true⟩ false false 1 0
        ⟨[3, 4], [0, 0, 0, 0, 0, 0, 0, 0, 0, 0, 0, 0], true⟩ "blas"
        = (refGemm true false 3 4 2 [1, 2, 3, 4, 5, 6] [1, 0, 0, 0, 0, 1, 0, 0]
            [0, 0, 0, 0, 0, 0, 0, 0, 0, 0, 0, 0] 1 0).map
            (fun d => { (⟨[3, 4], [0, 0, 0, 0, 0, 0, 0, 0, 0, 0, 0, 0], true⟩ : GPUTensor)
              with data := d }) ∧
    MatrixDotFunc refGemm refGemm ⟨[2, 3], [1, 2, 3, 4, 5, 6], false⟩
        ⟨[2, 4], [1, 0, 0, 0, 0, 1, 0, 0], true⟩ false false 1 0
        ⟨[3, 4], [0, 0, 0, 0, 0, 0, 0, 0, 0, 0, 0, 0], true⟩ "asm"
        = (refGemm true false 3 4 2 [1, 2, 3, 4, 5, 6] [1, 0, 0, 0, 0, 1, 0, 0]
            [0, 0, 0, 0, 0, 0, 0, 0, 0, 0, 0, 0] 1 0).map
            (fun d => { (⟨[3, 4], [0, 0, 0, 0, 0, 0, 0, 0, 0, 0, 0, 0], true⟩ : GPUTensor)
              with data := d }) ∧
    (false = true → true = false) ∧ (false = false → true = !false) ∧
    (true = true → false = false) ∧ (true = false → false = !false) :=
  MatrixDot_xor_layout refGemm refGemm ⟨[2, 3], [1, 2, 3, 4, 5, 6], false⟩
    ⟨[2, 4], [1, 0, 0, 0, 0, 1, 0, 0], true⟩
    ⟨[3, 4], [0, 0, 0, 0, 0, 0, 0, 0, 0, 0, 0, 0], true⟩ false false 1 0 2 2 [3] [4]
    true false 3 4 2 (by decide) (by decide) (by decide) (by decide) (by decide)
    (by decide) (by decide) (by decide) (by decide) (by decide) (by decide) (by decide)
    (by decide)

/-! ## Matrix multiply dispatch: fatal checks -/

/-- When both leading extents are positive and a check fails, `MatrixDotFunc` stops at
the check, whatever the primitives and the kernel name are. -/
theorem MatrixDotFunc_check_abort (gpuGemm sassGemm : Gemm) (left right output : GPUTensor)
    (transa transb : Bool) (alpha beta : DType) (sl sr : Nat) (restl restr : List Nat)
    (ea eb : Bool) (dl dr dcl dcr : Nat)
    (hl : left.shape = sl :: restl) (hr : right.shape = sr :: restr)
    (hsl : 0 < sl) (hsr : 0 < sr)
    (hea : ea = xor transa (!left.row_major)) (heb : eb = xor transb (!right.row_major))
    (hdl : dl = if ea then left.size / sl else sl)
    (hdr : dr = if eb then sr else right.size / sr)
    (hdcl : dcl = if ea then sl else left.size / sl)
    (hdcr : dcr = if eb then right.size / sr else sr)
    (hfail : dcl ≠ dcr ∨ dl = 0 ∨ dcr = 0 ∨ dr = 0) (kernel : String) :
    MatrixDotFunc gpuGemm sassGemm left right transa transb alpha beta output kernel
      = .error .check := by
  have hfa : (if left.row_major then transa else !transa) = ea := by
    rw [hea]; exact gpu_trans_eq_xor _ _
  have hfb : (if right.row_major then transb else !transb) = eb := by
    rw [heb]; exact gpu_trans_eq_xor _ _
  have h0l : shape0 left = .ok sl := by simp [shape0, hl]
  have h0r : shape0 right = .ok sr := by simp [shape0, hr]
  have e1 : (if ea = true then (do udiv left.size (← shape0 left)) else shape0 left)
      = Except.ok dl := by
    rw [hdl]; cases ea <;> simp [h0l, udiv_ok hsl]
  have e2 : (if eb = true then shape0 right else (do udiv right.size (← shape0 right)))
      = Except.ok dr := by
    rw [hdr]; cases eb <;> simp [h0r, udiv_ok hsr]
  have e3 : (if ea = true then shape0 left else (do udiv left.size (← shape0 left)))
      = Except.ok dcl := by
    rw [hdcl]; cases ea <;> simp [h0l, udiv_ok hsl]
  have e4 : (if eb = true then (do udiv right.size (← shape0 right)) else shape0 right)
      = Except.ok dcr := by
    rw [hdcr]; cases eb <;> simp [h0r, udiv_ok hsr]
  unfold MatrixDotFunc
  simp only [hfa, hfb, e1, e2, e3, e4, run_ok_bind]
  by_cases hc : dcl = dcr
  · rw [CHECK_EQ_ok hc, run_ok_bind]
    by_cases h1 : dl = 0
    · simp [CHECK_NE, h1]
    · rw [CHECK_NE_ok h1, run_ok_bind]
      by_cases h2 : dcr = 0
      · simp [CHECK_NE, h2]
      · rw [CHECK_NE_ok h2, run_ok_bind]
        have h3 : dr = 0 := by
          rcases hfail with h | h | h | h
          · exact absurd hc h
          · exact absurd h h1
          · exact absurd h h2
          · exact h
        simp [CHECK_NE, h3]
  · simp [CHECK_EQ, hc]

/-- When a leading extent is zero, the dimension computation of `MatrixDotFunc` divides
by zero, whatever the primitives and the kernel name are. -/
theorem MatrixDotFunc_divzero (gpuGemm sassGemm : Gemm) (left right output : GPUTensor)
    (transa transb : Bool) (alpha beta : DType) (sl sr : Nat) (restl restr : List Nat)
    (hl : left.shape = sl :: restl) (hr : right.shape = sr :: restr)
    (hz : sl = 0 ∨ sr = 0) (kernel : String) :
    MatrixDotFunc gpuGemm sassGemm left right transa transb alpha beta output kernel
      = .error .divzero := by
  have h0l : shape0 left = .ok sl := by simp [shape0, hl]
  have h0r : shape0 right = .ok sr := by simp [shape0, hr]
  unfold MatrixDotFunc
  simp only [h0l, h0r, run_ok_bind]
  by_cases hsl : sl = 0
  · subst hsl
    cases (if left.row_major = true then transa else !transa) <;>
      cases (if right.row_major = true then transb else !transb) <;>
      by_cases hsr : sr = 0 <;> simp [udiv, hsr]
  · have hsr : sr = 0 := hz.resolve_left hsl
    subst hsr
    cases (if left.row_major = true then transa else !transa) <;>
      cases (if right.row_major = true then transb else !transb) <;>
      simp [udiv, hsl]

theorem leading_extents_pos {sl sr sizel sizer : Nat} {ea eb : Bool} {dl dcr : Nat}
    (hdl : dl = if ea then sizel / sl else sl)
    (hdcr : dcr = if eb then sizer / sr else sr)
    (hl0 : dl ≠ 0) (hcr0 : dcr ≠ 0) :
    0 < sl ∧ 0 < sr := by
  constructor
  · rcases Nat.eq_zero_or_pos sl with h | h
    · subst h
      cases ea <;> simp_all
    · exact h
  · rcases Nat.eq_zero_or_pos sr with h | h
    · subst h
      cases eb <;> simp_all
    · exact h

/-- Claim C11: `MatrixDot` treats disagreement of the common dimension as fatal.  When
the column count of `op(left)` differs from the row count of `op(right)` the call stops
with a fault whatever the primitives are, so none is invoked and no output is produced:
at `CHECK_EQ` when both leading extents are positive, in the division `size / shape[0]`
otherwise.  When the two agree and no extent is zero, no check fails: the call is the
call of the selected primitive, and returns whenever that primitive returns. -/
theorem MatrixDot_common_dimension_fatal (gpuGemm sassGemm : Gemm)
    (left right output : GPUTensor) (transa transb : Bool) (alpha beta : DType)
    (kernel : String) (sl sr : Nat) (restl restr : List Nat)
    (ea eb : Bool) (dl dr dcl dcr : Nat)
    (hl : left.shape = sl :: restl) (hr : right.shape = sr :: restr)
    (hea : ea = xor transa (!left.row_major)) (heb : eb = xor transb (!right.row_major))
    (hdl : dl = if ea then left.size / sl else sl)
    (hdr : dr = if eb then sr else right.size / sr)
    (hdcl : dcl = if ea then sl else left.size / sl)
    (hdcr : dcr = if eb then right.size / sr else sr) :
    (dcl ≠ dcr →
      MatrixDotFunc gpuGemm sassGemm left right transa transb alpha beta output kernel
        = .error (if sl = 0 ∨ sr = 0 then Fault.divzero else Fault.check)) ∧
    (dcl = dcr → dl ≠ 0 → dcl ≠ 0 → dr ≠ 0 →
      MatrixDotFunc gpuGemm sassGemm left right transa transb alpha beta output kernel
        = (if kernel = "blas" then
            (gpuGemm ea eb dl dr dcl left.data right.data output.data alpha beta).map
              (fun d => { output with data := d })
          else if kernel = "asm" then
            (sassGemm ea eb dl dr dcl left.data right.data output.data alpha beta).map
              (fun d => { output with data := d })
          else .ok output) ∧
      ((∃ d, gpuGemm ea eb dl dr dcl left.data right.data output.data alpha beta = .ok d) →
        (∃ d, sassGemm ea eb dl dr dcl left.data right.data output.data alpha beta = .ok d) →
        ∃ res, MatrixDotFunc gpuGemm sassGemm left right transa transb alpha beta output
          kernel = .ok res)) := by
  constructor
  · intro hne
    by_cases hz : sl = 0 ∨ sr = 0
    · rw [if_pos hz]
      exact MatrixDotFunc_divzero gpuGemm sassGemm left right output transa transb alpha beta
        sl sr restl restr hl hr hz kernel
    · rw [if_neg hz]
      have hsl : 0 < sl := Nat.pos_of_ne_zero (fun h => hz (Or.inl h))
      have hsr : 0 < sr := Nat.pos_of_ne_zero (fun h => hz (Or.inr h))
      exact MatrixDotFunc_check_abort gpuGemm sassGemm left right output transa transb
        alpha beta sl sr restl restr ea eb dl dr dcl dcr hl hr hsl hsr hea heb hdl hdr
        hdcl hdcr (Or.inl hne) kernel
  · intro hc hl0 hc0 hr0
    obtain ⟨hsl, hsr⟩ := leading_extents_pos hdl hdcr hl0 (hc ▸ hc0)
    have hd := MatrixDotFunc_dispatch gpuGemm sassGemm left right output transa transb
      alpha beta sl sr restl restr ea eb dl dr dcl hl hr hsl hsr hea heb hdl hdr hdcl
      (hc ▸ hdcr) hl0 hc0 hr0 kernel
    refine ⟨hd, ?_⟩
    rintro ⟨d1, h1⟩ ⟨d2, h2⟩
    rw [hd, h1, h2]
    by_cases hb : kernel = "blas"
    · exact ⟨_, by rw [if_pos hb]; rfl⟩
    · by_cases ha : kernel = "asm"
      · exact ⟨_, by rw [if_neg hb, if_pos ha]; rfl⟩
      · exact ⟨_, by rw [if_neg hb, if_neg ha]⟩

/-- Instances of claim C11 with row-major operands and both flags off: for shapes
`[2, 3]` and `[2, 4]` the common dimensions are `3` and `2` and the call stops at the
check; for shapes `[2, 3]` and `[3, 2]` they agree and the call returns. -/
theorem MatrixDot_common_dimension_fatal_witness :
    MatrixDotFunc refGemm refGemm ⟨[2, 3], [1, 2, 3, 4, 5, 6], true⟩
        ⟨[2, 4], [1, 0, 0, 0, 0, 1, 0, 0], true⟩ false false 1 0
        ⟨[2, 4], [0, 0, 0, 0, 0, 0, 0, 0], true⟩ "blas" = .error .check ∧
    ∃ res, MatrixDotFunc refGemm refGemm ⟨[2, 3], [1, 2, 3, 4, 5, 6], true⟩
        ⟨[3, 2], [1, 0, 0, 1, 0, 0], true⟩ false false 1 0
        ⟨[2, 2], [0, 0, 0, 0], true⟩ "blas" = .ok res := by
  constructor
  · have h := (MatrixDot_common_dimension_fatal refGemm refGemm
      ⟨[2, 3], [1, 2, 3, 4, 5, 6], true⟩ ⟨[2, 4], [1, 0, 0, 0, 0, 1, 0, 0], true⟩
      ⟨[2, 4], [0, 0, 0, 0, 0, 0, 0, 0], true⟩ false false 1 0 "blas" 2 2 [3] [4]
      false false 2 4 3 2 (by decide) (by decide) (by decide) (by decide) (by decide)
      (by decide) (by decide) (by decide)).1 (by decide)
    simpa using h
  · exact ((MatrixDot_common_dimension_fatal refGemm refGemm
      ⟨[2, 3], [1, 2, 3, 4, 5, 6], true⟩ ⟨[3, 2], [1, 0, 0, 1, 0, 0], true⟩
      ⟨[2, 2], [0, 0, 0, 0], true⟩ false false 1 0 "blas" 2 3 [3] [2]
      false false 2 2 3 3 (by decide) (by decide) (by decide) (by decide) (by decide)
      (by decide) (by decide) (by decide)).2 rfl (by decide) (by decide) (by decide)).2
      ⟨_, by simp [refGemm]; rfl⟩ ⟨_, by simp [refGemm]; rfl⟩

/-- Claim C12: `MatrixDot` with a kernel name other than `"blas"` and `"asm"` performs
no computation.  For operands that pass the dimension checks the call returns the output
tensor exactly as it was, whatever the primitives are, while `"blas"` and `"asm"` call
their primitive on one and the same list of arguments. -/
theorem MatrixDot_unknown_kernel_noop (gpuGemm sassGemm : Gemm)
    (left right output : GPUTensor) (transa transb : Bool) (alpha beta : DType)
    (kernel : String) (sl sr : Nat) (restl restr : List Nat)
    (ea eb : Bool) (dl dr dc : Nat)
    (hl : left.shape = sl :: restl) (hr : right.shape = sr :: restr)
    (hsl : 0 < sl) (hsr : 0 < sr)
    (hea : ea = xor transa (!left.row_major)) (heb : eb = xor transb (!right.row_major))
    (hdl : dl = if ea then left.size / sl else sl)
    (hdr : dr = if eb then sr else right.size / sr)
    (hdc : dc = if ea then sl else left.size / sl)
    (hcommon : dc = if eb then right.size / sr else sr)
    (hl0 : dl ≠ 0) (hc0 : dc ≠ 0) (hr0 : dr ≠ 0)
    (hkb : kernel ≠ "blas") (hka : kernel ≠ "asm") :
    MatrixDotFunc gpuGemm sassGemm left right transa transb alpha beta output kernel
        = .ok output ∧
    MatrixDotFunc gpuGemm sassGemm left right transa transb alpha beta output "blas"
        = (gpuGemm ea eb dl dr dc left.data right.data output.data alpha beta).map
            (fun d => { output with data := d }) ∧
    MatrixDotFunc gpuGemm sassGemm left right transa transb alpha beta output "asm"
        = (sassGemm ea eb dl dr dc left.data right.data output.data alpha beta).map
            (fun d => { output with data := d }) := by
  have hd := MatrixDotFunc_dispatch gpuGemm sassGemm left right output transa transb
    alpha beta sl sr restl restr ea eb dl dr dc hl hr hsl hsr hea heb hdl hdr hdc hcommon
    hl0 hc0 hr0
  refine ⟨?_, by rw [hd]; simp, by rw [hd]; simp⟩
  rw [hd, if_neg hkb, if_neg hka]

/-- Instance of claim C12: the product of a `[2, 3]` and a `[3, 2]` matrix requested
with the kernel name `"cublas"` returns the output as it was, although the reference
primitive would have written `[1, 2, 4, 5]`. -/
theorem MatrixDot_unknown_kernel_noop_witness :
    MatrixDotFunc refGemm refGemm ⟨[2, 3], [1, 2, 3, 4, 5, 6], true⟩
        ⟨[3, 2], [1, 0, 0, 1, 0, 0], true⟩ false false 1 0
        ⟨[2, 2], [7, 7, 7, 7], true⟩ "cublas" = .ok ⟨[2, 2], [7, 7, 7, 7], true⟩ ∧
    MatrixDotFunc refGemm refGemm ⟨[2, 3], [1, 2, 3, 4, 5, 6], true⟩
        ⟨[3, 2], [1, 0, 0, 1, 0, 0], true⟩ false false 1 0
        ⟨[2, 2], [7, 7, 7, 7], true⟩ "blas"
      = MatrixDotFunc refGemm refGemm ⟨[2, 3], [1, 2, 3, 4, 5, 6], true⟩
        ⟨[3, 2], [1, 0, 0, 1, 0, 0], true⟩ false false 1 0
        ⟨[2, 2], [7, 7, 7, 7], true⟩ "asm" := by
  have h := MatrixDot_unknown_kernel_noop refGemm refGemm
    ⟨[2, 3], [1, 2, 3, 4, 5, 6], true⟩ ⟨[3, 2], [1, 0, 0, 1, 0, 0], true⟩
    ⟨[2, 2], [7, 7, 7, 7], true⟩ false false 1 0 "cublas" 2 3 [3] [2]
    false false 2 2 3 (by decide) (by decide) (by decide) (by decide) (by decide)
    (by decide) (by decide) (by decide) (by decide) (by decide) (by decide) (by decide)
    (by decide) (by decide) (by decide)
  exact ⟨h.1, h.2.1.trans h.2.2.symm⟩

/-- Claim C20: `MatrixDot` never reaches a multiply primitive with a zero extent.  When
`shape[0]` is positive for both operands the dimension computation does not divide by
zero: the call either stops at a `CHECK_*` or is the call of the selected primitive.
When one of `dim_left`, the two common dimensions and `dim_right` is `0`, the call
stops with a fault whatever the primitives are: at a `CHECK_*` when both `shape[0]` are
positive, in the division `size / shape[0]` when a `shape[0]` is `0`. -/
theorem MatrixDot_no_zero_extent (gpuGemm sassGemm : Gemm)
    (left right output : GPUTensor) (transa transb : Bool) (alpha beta : DType)
    (kernel : String) (sl sr : Nat) (restl restr : List Nat)
    (ea eb : Bool) (dl dr dcl dcr : Nat)
    (hl : left.shape = sl :: restl) (hr : right.shape = sr :: restr)
    (hea : ea = xor transa (!left.row_major)) (heb : eb = xor transb (!right.row_major))
    (hdl : dl = if ea then left.size / sl else sl)
    (hdr : dr = if eb then sr else right.size / sr)
    (hdcl : dcl = if ea then sl else left.size / sl)
    (hdcr : dcr = if eb then right.size / sr else sr) :
    (0 < sl → 0 < sr →
      (MatrixDotFunc gpuGemm sassGemm left right transa transb alpha beta output kernel
          = .error .check ∧ (dcl ≠ dcr ∨ dl = 0 ∨ dcr = 0 ∨ dr = 0)) ∨
      (MatrixDotFunc gpuGemm sassGemm left right transa transb alpha beta output kernel
          = (if kernel = "blas" then
              (gpuGemm ea eb dl dr dcl left.data right.data output.data alpha beta).map
                (fun d => { output with data := d })
            else if kernel = "asm" then
              (sassGemm ea eb dl dr dcl left.data right.data output.data alpha beta).map
                (fun d => { output with data := d })
            else .ok output) ∧ dl ≠ 0 ∧ dcl ≠ 0 ∧ dr ≠ 0)) ∧
    ((dl = 0 ∨ dcl = 0 ∨ dcr = 0 ∨ dr = 0) →
      MatrixDotFunc gpuGemm sassGemm left right transa transb alpha beta output kernel
        = .error (if sl = 0 ∨ sr = 0 then Fault.divzero else Fault.check)) := by
  constructor
  · intro hsl hsr
    by_cases hfail : dcl ≠ dcr ∨ dl = 0 ∨ dcr = 0 ∨ dr = 0
    · exact Or.inl ⟨MatrixDotFunc_check_abort gpuGemm sassGemm left right output transa
        transb alpha beta sl sr restl restr ea eb dl dr dcl dcr hl hr hsl hsr hea heb hdl
        hdr hdcl hdcr hfail kernel, hfail⟩
    · simp only [not_or, not_not] at hfail
      obtain ⟨hc, hl0, hcr0, hr0⟩ := hfail
      have hc0 : dcl ≠ 0 := hc ▸ hcr0
      exact Or.inr ⟨MatrixDotFunc_dispatch gpuGemm sassGemm left right output transa transb
        alpha beta sl sr restl restr ea eb dl dr dcl hl hr hsl hsr hea heb hdl hdr hdcl
        (hc ▸ hdcr) hl0 hc0 hr0 kernel, hl0, hc0, hr0⟩
  · intro hzero
    by_cases hz : sl = 0 ∨ sr = 0
    · rw [if_pos hz]
      exact MatrixDotFunc_divzero gpuGemm sassGemm left right output transa transb alpha beta
        sl sr restl restr hl hr hz kernel
    · rw [if_neg hz]
      have hsl : 0 < sl := Nat.pos_of_ne_zero (fun h => hz (Or.inl h))
      have hsr : 0 < sr := Nat.pos_of_ne_zero (fun h => hz (Or.inr h))
      have hfail : dcl ≠ dcr ∨ dl = 0 ∨ dcr = 0 ∨ dr = 0 := by
        rcases hzero with h | h | h | h
        · exact Or.inr (Or.inl h)
        · by_cases hc : dcl = dcr
          · exact Or.inr (Or.inr (Or.inl (hc ▸ h)))
          · exact Or.inl hc
        · exact Or.inr (Or.inr (Or.inl h))
        · exact Or.inr (Or.inr (Or.inr h))
      exact MatrixDotFunc_check_abort gpuGemm sassGemm left right output transa transb
        alpha beta sl sr restl restr ea eb dl dr dcl dcr hl hr hsl hsr hea heb hdl hdr
        hdcl hdcr hfail kernel

/-- Instances of claim C20: a `left` of shape `[2, 0]` has `dim_common = 0` and the call
stops at a check; a `left` of shape `[0, 2]` makes `size / shape[0]` a division by
zero. -/
theorem MatrixDot_no_zero_extent_witness :
    MatrixDotFunc refGemm refGemm ⟨[2, 0], [], true⟩ ⟨[2, 2], [1, 0, 0, 1], true⟩
        false false 1 0 ⟨[2, 2], [0, 0, 0, 0], true⟩ "blas" = .error .check ∧
    MatrixDotFunc refGemm refGemm ⟨[0, 2], [], true⟩ ⟨[2, 2], [1, 0, 0, 1], true⟩
        false false 1 0 ⟨[0, 2], [], true⟩ "blas" = .error .divzero := by
  constructor
  · have h := (MatrixDot_no_zero_extent refGemm refGemm ⟨[2, 0], [], true⟩
      ⟨[2, 2], [1, 0, 0, 1], true⟩ ⟨[2, 2], [0, 0, 0, 0], true⟩ false false 1 0 "blas"
      2 2 [0] [2] false false 2 2 0 2 (by decide) (by decide) (by decide) (by decide)
      (by decide) (by decide) (by decide) (by decide)).2 (Or.inr (Or.inl rfl))
    simpa using h
  · have h := (MatrixDot_no_zero_extent refGemm refGemm ⟨[0, 2], [], true⟩
      ⟨[2, 2], [1, 0, 0, 1], true⟩ ⟨[0, 2], [], true⟩ false false 1 0 "blas"
      0 2 [2] [2] false false 0 2 0 2 (by decide) (by decide) (by decide) (by decide)
      (by decide) (by decide) (by decide) (by decide)).2 (Or.inl rfl)
    simpa using h

/-! ## Bias: what the kernels do -/

/-- The kernel `GPUBiasForward`, on a buffer whose length is a multiple of `num_sample`,
returns and adds `bias[0]` to every element. -/
theorem GPUBiasForward_spec (input bias output : List DType) (num_sample : Nat) (b0 : DType)
    (hN : 0 < num_sample) (hmod : input.length % num_sample = 0)
    (hlen : input.length = output.length) (hb : 0 < input.length → bias[0]? = some b0) :
    ∃ res, GPUBiasForward input bias num_sample input.length output = .ok res ∧
      res.length = output.length ∧
      ∀ (i : Nat) (x : DType), input[i]? = some x → res[i]? = some (x + b0) := by
  obtain ⟨res, hres, hl, hpt, -⟩ := cudaLoop_elementwise
    (fun i _ => input.getD i 0 + b0)
    (fun i out => do
      let dim_index ← umod input.length num_sample
      let x ← rd input i
      let b ← rd bias dim_index
      wr out i (x + b))
    input.length output (le_of_eq hlen)
    (by
      intro i out g hi hlo _ _
      have hx : input[i]? = some (input.getD i 0) := by
        simp [List.getD, List.getElem?_eq_getElem hi]
      have hio : i < out.length := by omega
      have hm : umod input.length num_sample = .ok 0 := by
        simp [umod, Nat.pos_iff_ne_zero.mp hN, hmod]
      simp only [hm, rd_ok hx, rd_ok (hb (by omega)), wr_ok _ hio, run_ok_bind])
  refine ⟨res, hres, hl, ?_⟩
  intro i x hx
  have hi : i < input.length := (List.getElem?_eq_some.mp hx).1
  have hg : output[i]? = some output[i] := List.getElem?_eq_getElem (by omega)
  rw [hpt i _ hi hg]
  simp [List.getD, hx]

/-- Claim C17: the bias index used by `BiasForward` does not depend on the element
index.  For an input with `shape[0] >= 1` (so that the element count is `shape[0] * dim`)
the index `size % num_sample` is `0`, the call returns, and every output element is
`input[i] + bias[0]`. -/
theorem BiasForward_index_is_zero (input bias output : GPUTensor) (N : Nat) (rest : List Nat)
    (hin : input.WF) (hout : output.WF) (hsz : input.size = output.size)
    (hs : input.shape = N :: rest) (hN : 1 ≤ N) (hb : bias.data.length = rest.prod) :
    input.size = N * rest.prod ∧ umod input.size N = .ok 0 ∧
    ∃ res, BiasForwardFunc input bias output = .ok res ∧
      res.shape = output.shape ∧ res.data.length = output.data.length ∧
      ∀ (i : Nat) (x : DType), input.data[i]? = some x →
        res.data[i]? = some (x + bias.data.getD 0 0) := by
  have hsize : input.size = N * rest.prod := by simp [GPUTensor.size, hs]
  have hmod : input.size % N = 0 := by rw [hsize]; exact Nat.mul_mod_right N _
  have hm : umod input.size N = .ok 0 := by
    simp [umod, Nat.pos_iff_ne_zero.mp hN, hmod]
  have hlen : input.data.length = output.data.length := by rw [hin, hout, hsz]
  have hb0 : 0 < input.data.length → bias.data[0]? = some (bias.data.getD 0 0) := by
    intro hpos
    rw [hin, hsize] at hpos
    have hd : 0 < rest.prod := Nat.pos_of_mul_pos_left hpos
    have : 0 < bias.data.length := by omega
    simp [List.getD, List.getElem?_eq_getElem this]
  obtain ⟨res, hres, hl, hpt⟩ := GPUBiasForward_spec input.data bias.data output.data N
    (bias.data.getD 0 0) hN (by rw [hin]; exact hmod) hlen hb0
  rw [hin] at hres
  have h0 : shape0 input = .ok N := by simp [shape0, hs]
  refine ⟨hsize, hm, { output with data := res }, ?_, rfl, hl, hpt⟩
  simp only [BiasForwardFunc, CHECK_EQ_ok hsz, h0, hres, run_ok_bind, run_pure]

/-- Instance of claim C17 on an input of shape `[2, 3]` and the bias `[1, 2, 3]`. -/
theorem BiasForward_index_is_zero_witness :
    GPUTensor.size ⟨[2, 3], [10, 20, 30, 40, 50, 60], true⟩ = 2 * [3].prod ∧
    umod (GPUTensor.size ⟨[2, 3], [10, 20, 30, 40, 50, 60], true⟩) 2 = .ok 0 ∧
    ∃ res, BiasForwardFunc ⟨[2, 3], [10, 20, 30, 40, 50, 60], true⟩ ⟨[3], [1, 2, 3], true⟩
        ⟨[2, 3], [0, 0, 0, 0, 0, 0], true⟩ = .ok res ∧
      res.shape = [2, 3] ∧ res.data.length = 6 ∧
      ∀ (i : Nat) (x : DType), ([10, 20, 30, 40, 50, 60] : List DType)[i]? = some x →
        res.data[i]? = some (x + ([1, 2, 3] : List DType).getD 0 0) :=
  BiasForward_index_is_zero ⟨[2, 3], [10, 20, 30, 40, 50, 60], true⟩ ⟨[3], [1, 2, 3], true⟩
    ⟨[2, 3], [0, 0, 0, 0, 0, 0], true⟩ 2 [3] (by decide) (by decide) (by decide)
    (by decide) (by decide) (by decide)

/-- On an input of shape `[N, dim]` with `N >= 1`, `BiasBackwardUpdateFunc` is its kernel
run on the buffers. -/
theorem BiasBackwardUpdateFunc_eq (input update : GPUTensor) (N dim : Nat)
    (hs : input.shape = [N, dim]) (hN : 1 ≤ N) :
    BiasBackwardUpdateFunc input update
      = (GPUBiasBackwardUpdate input.data N dim update.data).map
          (fun d => { update with data := d }) := by
  have hsize : input.size = N * dim := by simp [GPUTensor.size, hs]
  have h0 : shape0 input = .ok N := by simp [shape0, hs]
  have hd : udiv input.size N = .ok dim := by
    rw [udiv_ok hN, hsize, Nat.mul_div_cancel_left dim hN]
  simp only [BiasBackwardUpdateFunc, h0, hd, run_ok_bind]
  cases GPUBiasBackwardUpdate input.data N dim update.data <;> rfl

/-- Claim C18: `BiasBackwardUpdate` accumulates rather than overwrites.  On an input of
shape `[N, dim]` and an update buffer of length `dim` holding `u`, a call that returns
(it does when `N >= 1`) leaves `update[j] = u[j] + sum over n < N of input[n*dim + j]`;
the result is the pure column sum exactly when `u` was all zeros; and a second call on
the same input leaves `u[j]` plus twice the column sum. -/
theorem BiasBackwardUpdate_accumulates (input update : GPUTensor) (N dim : Nat)
    (hin : input.WF) (hs : input.shape = [N, dim]) (hu : update.data.length = dim) :
    (1 ≤ N → ∃ res res2, BiasBackwardUpdateFunc input update = .ok res ∧
      BiasBackwardUpdateFunc input res = .ok res2) ∧
    ∀ res, BiasBackwardUpdateFunc input update = .ok res →
      res.data.length = dim ∧
      (∀ (j : Nat) (u : DType), update.data[j]? = some u →
        res.data[j]? = some (u + ∑ n ∈ Finset.range N, input.data.getD (n * dim + j) 0)) ∧
      ((∀ j : Nat, j < dim →
          res.data[j]? = some (∑ n ∈ Finset.range N, input.data.getD (n * dim + j) 0))
        ↔ ∀ u ∈ update.data, u = 0) ∧
      ∀ res2, BiasBackwardUpdateFunc input res = .ok res2 →
        ∀ (j : Nat) (u : DType), update.data[j]? = some u →
          res2.data[j]? = some
            (u + 2 * ∑ n ∈ Finset.range N, input.data.getD (n * dim + j) 0) := by
  have hsize : input.size = N * dim := by simp [GPUTensor.size, hs]
  have hlen : input.data.length = N * dim := by rw [hin, hsize]
  rcases Nat.eq_zero_or_pos N with hN0 | hN
  · subst hN0
    have herr : ∀ upd : GPUTensor, BiasBackwardUpdateFunc input upd = .error .divzero := by
      intro upd
      simp [BiasBackwardUpdateFunc, shape0, hs, udiv]
    refine ⟨fun h => absurd h (by decide), ?_⟩
    intro res hres
    rw [herr] at hres
    cases hres
  · obtain ⟨r1, hr1, hl1, hp1⟩ := GPUBiasBackwardUpdate_spec input.data update.data N dim hlen hu
    obtain ⟨r2, hr2, -, hp2⟩ := GPUBiasBackwardUpdate_spec input.data r1 N dim hlen
      (by rw [hl1, hu])
    have hf1 : BiasBackwardUpdateFunc input update = .ok { update with data := r1 } := by
      rw [BiasBackwardUpdateFunc_eq input update N dim hs hN, hr1]; rfl
    have hf2 : BiasBackwardUpdateFunc input { update with data := r1 }
        = .ok { update with data := r2 } := by
      rw [BiasBackwardUpdateFunc_eq input _ N dim hs hN]
      simp only [hr2]; rfl
    refine ⟨fun _ => ⟨_, _, hf1, hf2⟩, ?_⟩
    intro res hres
    rw [hf1] at hres
    cases hres
    refine ⟨by rw [hl1, hu], hp1, ?_, ?_⟩
    · constructor
      · intro hall u hmem
        obtain ⟨j, hj, rfl⟩ := List.getElem_of_mem hmem
        have h1 := hp1 j _ (List.getElem?_eq_getElem hj)
        have h2 := hall j (by omega)
        simp only at h1 h2
        rw [h1] at h2
        have h3 := Option.some.inj h2
        linarith
      · intro hz j hj
        have hju : j < update.data.length := by omega
        have h1 := hp1 j _ (List.getElem?_eq_getElem hju)
        rw [hz _ (List.getElem_mem hju), zero_add] at h1
        exact h1
    · intro res2 hres2
      rw [hf2] at hres2
      cases hres2
      intro j u hju
      have h1 := hp1 j u hju
      have h2 := hp2 j _ h1
      simp only
      rw [h2]
      congr 1
      ring

/-- Instance of claim C18 on the input `[[1, 2], [3, 4]]` and the update buffer
`[10, 0]`: both calls return, `update[0]` is `10 + 4` after the first call and
`10 + 2 * 4` after the second. -/
theorem BiasBackwardUpdate_accumulates_witness :
    ∃ res res2,
      BiasBackwardUpdateFunc ⟨[2, 2], [1, 2, 3, 4], true⟩ ⟨[2], [10, 0], true⟩ = .ok res ∧
      BiasBackwardUpdateFunc ⟨[2, 2], [1, 2, 3, 4], true⟩ res = .ok res2 ∧
      res.data[0]? = some 14 ∧ res2.data[0]? = some 18 := by
  have h := BiasBackwardUpdate_accumulates ⟨[2, 2], [1, 2, 3, 4], true⟩
    ⟨[2], [10, 0], true⟩ 2 2 (by decide) (by decide) (by decide)
  obtain ⟨res, res2, h1, h2⟩ := h.1 (by decide)
  obtain ⟨-, hp, -, hq⟩ := h.2 res h1
  refine ⟨res, res2, h1, h2, ?_, ?_⟩
  · rw [hp 0 10 rfl]
    norm_num [Finset.sum_range_succ]
  · rw [hq res2 h2 0 10 rfl]
    norm_num [Finset.sum_range_succ]

/-! ## Rectified linear unit: derivative on the cached output -/

theorem rectlin_sign (x slope : DType) (hslope : 0 ≤ slope) :
    0 < max x 0 + slope * min x 0 ↔ 0 < x := by
  by_cases hpos : 0 < x
  · simp [hpos, max_eq_left hpos.le, min_eq_right hpos.le]
  · have hle : x ≤ 0 := not_lt.mp hpos
    simp only [max_eq_right hle, min_eq_left hle, zero_add]
    constructor
    · intro h
      have := mul_nonpos_of_nonneg_of_nonpos hslope hle
      linarith
    · intro h
      exact absurd h hpos

/-- Claim C19: for a slope that is not negative, `RectlinDerivative` gives the same
result whether it is driven by the pre-activation `x` or by the cached forward output
`RectlinApply(x, slope)`: the factor (`1` where the driving value is positive, `slope`
elsewhere) is the same at every element.  For the slope `-1` and `x = -1` the two
results differ. -/
theorem RectlinDerivative_on_cached_output (input out0 grad : GPUTensor) (slope : DType)
    (hslope : 0 ≤ slope) (hin : input.WF) (hout : out0.WF) (hgr : grad.WF)
    (hsz : input.size = out0.size) (hsg : input.size = grad.size) :
    (∃ act res, RectlinApplyFunc input slope out0 = .ok (input, act) ∧
      RectlinDerivativeFunc input slope grad = .ok res ∧
      RectlinDerivativeFunc act slope grad = .ok res ∧
      ∀ (i : Nat) (x y : DType), input.data[i]? = some x → act.data[i]? = some y →
        (if 0 < y then (1 : DType) else slope) = (if 0 < x then 1 else slope)) ∧
    (∃ s x : DType, s < 0 ∧ x < 0 ∧ ∃ act r1 r2,
      RectlinApplyFunc ⟨[1], [x], true⟩ s ⟨[1], [0], true⟩ = .ok (⟨[1], [x], true⟩, act) ∧
      RectlinDerivativeFunc ⟨[1], [x], true⟩ s ⟨[1], [1], true⟩ = .ok r1 ∧
      RectlinDerivativeFunc act s ⟨[1], [1], true⟩ = .ok r2 ∧ r1 ≠ r2) := by
  constructor
  · have hlo : input.data.length = out0.data.length := by rw [hin, hout, hsz]
    have hlg : input.data.length = grad.data.length := by rw [hin, hgr, hsg]
    obtain ⟨a, ha, hfst, hal, hap⟩ := GPURectlinApply_spec input.data out0.data slope hlo
    obtain ⟨r1, hr1, hl1, hp1⟩ := GPURectlinDerivative_spec input.data grad.data slope hlg
    obtain ⟨r2, hr2, hl2, hp2⟩ := GPURectlinDerivative_spec a.2 grad.data slope
      (by rw [hal, ← hlo, hlg])
    have hsign : ∀ (i : Nat) (x y : DType), input.data[i]? = some x → a.2[i]? = some y →
        (0 < y ↔ 0 < x) := by
      intro i x y hx hy
      rw [hap i x hx] at hy
      cases hy
      exact rectlin_sign x slope hslope
    have hr : r2 = r1 := by
      apply List.ext_getElem?
      intro i
      by_cases hi : i < input.data.length
      · have hx : input.data[i]? = some input.data[i] := List.getElem?_eq_getElem hi
        have hy : a.2[i]? = some a.2[i] := List.getElem?_eq_getElem (by omega)
        have hg : grad.data[i]? = some grad.data[i] := List.getElem?_eq_getElem (by omega)
        rw [hp1 i _ _ hx hg, hp2 i _ _ hy hg]
        by_cases hpos : 0 < input.data[i]
        · rw [if_pos hpos, if_pos ((hsign i _ _ hx hy).mpr hpos)]
        · rw [if_neg hpos, if_neg (fun h => hpos ((hsign i _ _ hx hy).mp h))]
      · rw [List.getElem?_eq_none (by omega), List.getElem?_eq_none (by omega)]
    rw [hin] at ha hr1
    have hsa : a.2.length = out0.size := by rw [hal, hout]
    rw [hsa, hsz.symm] at hr2
    refine ⟨{ out0 with data := a.2 }, { grad with data := r1 }, ?_, ?_, ?_, ?_⟩
    · simp [RectlinApplyFunc, CHECK_EQ_ok hsz, ha, hfst]
    · simp [RectlinDerivativeFunc, CHECK_EQ_ok hsg, hr1]
    · have hs2 : GPUTensor.size { out0 with data := a.2 } = grad.size := by
        show out0.size = grad.size
        rw [← hsz, hsg]
      have hs3 : GPUTensor.size { out0 with data := a.2 } = input.size := hsz.symm
      simp only [RectlinDerivativeFunc, CHECK_EQ_ok hs2, hs3, hr2, hr, run_ok_bind, run_pure,
        CHECK_EQ_ok hsg]
    · intro i x y hx hy
      by_cases hpos : 0 < x
      · rw [if_pos hpos, if_pos ((hsign i x y hx hy).mpr hpos)]
      · rw [if_neg hpos, if_neg (fun h => hpos ((hsign i x y hx hy).mp h))]
  · refine ⟨-1, -1, by norm_num, by norm_num, ⟨[1], [1], true⟩, ⟨[1], [-1], true⟩,
      ⟨[1], [1], true⟩, ?_, ?_, ?_, ?_⟩
    · simp [RectlinApplyFunc, GPURectlinApply, cudaLoop, forLoop, CHECK_EQ, GPUTensor.size,
        rd, wr]
    · simp [RectlinDerivativeFunc, GPURectlinDerivative, cudaLoop, forLoop, CHECK_EQ,
        GPUTensor.size, rd, wr]
    · simp [RectlinDerivativeFunc, GPURectlinDerivative, cudaLoop, forLoop, CHECK_EQ,
        GPUTensor.size, rd, wr]
    · intro h
      have := congrArg GPUTensor.data h
      norm_num at this

/-- Instance of claim C19 on the input `[-2, 0, 3]` with the slope `1/2`. -/
theorem RectlinDerivative_on_cached_output_witness :
    ∃ act res,
      RectlinApplyFunc ⟨[3], [-2, 0, 3], true⟩ (1 / 2) ⟨[3], [0, 0, 0], true⟩
        = .ok (⟨[3], [-2, 0, 3], true⟩, act) ∧
      RectlinDerivativeFunc ⟨[3], [-2, 0, 3], true⟩ (1 / 2) ⟨[3], [5, 6, 7], true⟩
        = .ok res ∧
      RectlinDerivativeFunc act (1 / 2) ⟨[3], [5, 6, 7], true⟩ = .ok res ∧
      ∀ (i : Nat) (x y : DType), ([-2, 0, 3] : List DType)[i]? = some x →
        act.data[i]? = some y →
        (if 0 < y then (1 : DType) else 1 / 2) = (if 0 < x then 1 else 1 / 2) :=
  (RectlinDerivative_on_cached_output ⟨[3], [-2, 0, 3], true⟩ ⟨[3], [0, 0, 0], true⟩
    ⟨[3], [5, 6, 7], true⟩ (1 / 2) (by norm_num) (by decide) (by decide) (by decide)
    (by decide) (by decide)).1

/-! ## Random masks: results -/

theorem rd_ok_gen {α : Type} {buf : List α} {i : Nat} {v : α} (h : buf[i]? = some v) :
    Generic.rd buf i = .ok v := by
  simp [Generic.rd, h]

theorem wr_ok_gen {α : Type} {buf : List α} {i : Nat} (v : α) (h : i < buf.length) :
    Generic.wr buf i v = .ok (buf.set i v) := by
  simp [Generic.wr, h]

theorem getD_eq_gen {α : Type} [Zero α] {buf : List α} {i : Nat} (h : i < buf.length) :
    buf[i]? = some (buf.getD i 0) := by
  simp [List.getD, List.getElem?_eq_getElem h]

/-- Loop rule for a template kernel that rewrites element `i` of its buffer in
iteration `i`. -/
theorem cudaLoop_elementwise_gen {α : Type} (F : Nat → α → α)
    (body : Nat → List α → Run (List α)) (n : Nat) (out0 : List α) (hn : n ≤ out0.length)
    (hbody : ∀ i out g, i < n → out.length = out0.length → out0[i]? = some g →
      out[i]? = some g → body i out = .ok (out.set i (F i g))) :
    ∃ out, cudaLoop n body out0 = .ok out ∧ out.length = out0.length ∧
      (∀ j g, j < n → out0[j]? = some g → out[j]? = some (F j g)) ∧
      (∀ j, n ≤ j → out[j]? = out0[j]?) := by
  have key := forLoop_inv
    (fun k (out : List α) => out.length = out0.length ∧
      (∀ j g, j < k → out0[j]? = some g → out[j]? = some (F j g)) ∧
      (∀ j, k ≤ j → out[j]? = out0[j]?))
    0 n body out0 (Nat.zero_le n) ⟨rfl, by intro j g hj; omega, fun _ _ => rfl⟩
    (by
      intro i out _ hi ⟨hlen, hdone, hrest⟩
      have hi0 : i < out0.length := lt_of_lt_of_le hi hn
      have hg0 : out0[i]? = some out0[i] := List.getElem?_eq_getElem hi0
      have hg : out[i]? = some out0[i] := by rw [hrest i le_rfl]; exact hg0
      refine ⟨out.set i (F i out0[i]), hbody i out _ hi hlen hg0 hg, by simp [hlen], ?_, ?_⟩
      · intro j g hj hjg
        by_cases hji : j = i
        · subst hji
          rw [hg0] at hjg
          cases hjg
          simp [List.getElem?_set, hlen, hi0]
        · rw [List.getElem?_set_ne (Ne.symm hji)]
          exact hdone j g (by omega) hjg
      · intro j hj
        rw [List.getElem?_set_ne (by omega)]
        exact hrest j (by omega))
  simpa [cudaLoop] using key

/-! ## Rounding: bounds -/

theorem roundTiesEven_bounds {K : Type} [LinearOrderedField K] [FloorRing K] (x : K) :
    ⌊x⌋ ≤ roundTiesEven x ∧ roundTiesEven x ≤ ⌈x⌉ := by
  unfold roundTiesEven
  have h := Int.floor_le_ceil x
  split_ifs <;> simp [h]

theorem roundTiesEven_of_lt_half {K : Type} [LinearOrderedField K] [FloorRing K] (x : K)
    (z : ℤ) (h1 : (z : K) ≤ x) (h2 : 2 * (x - z) < 1) : roundTiesEven x = z := by
  have hfl : ⌊x⌋ = z := by
    rw [Int.floor_eq_iff]
    constructor
    · exact h1
    · linarith
  have hfr : Int.fract x = x - z := by
    rw [← Int.self_sub_floor, hfl]
  unfold roundTiesEven
  rw [hfr, if_pos h2, hfl]

theorem two_zpow_split {K : Type} [LinearOrderedField K] (t : Nat) (e : ℤ) :
    ((2 ^ t : ℤ) : K) * (2 : K) ^ (e - (t : ℤ)) = (2 : K) ^ e := by
  have h2 : (2 : K) ≠ 0 := two_ne_zero
  rw [Int.cast_pow, Int.cast_ofNat, ← zpow_natCast, ← zpow_add₀ h2]
  congr 1
  omega

theorem log_two_bounds {K : Type} [LinearOrderedField K] [FloorRing K] (x : K) (hx : 0 < x) :
    (2 : K) ^ Int.log 2 x ≤ x ∧ x < (2 : K) ^ (Int.log 2 x + 1) := by
  have h1 := Int.zpow_log_le_self (R := K) (b := 2) (by norm_num) hx
  have h2 := Int.lt_zpow_succ_log_self (R := K) (b := 2) (by norm_num) x
  simp only [Nat.cast_ofNat] at h1 h2
  exact ⟨h1, h2⟩

/-- A positive number and its rounding lie between the same two powers of two. -/
theorem roundFloat_bounds {K : Type} [LinearOrderedField K] [FloorRing K] (t : Nat) (x : K)
    (hx : 0 < x) :
    (2 : K) ^ Int.log 2 x ≤ roundFloat t x ∧ roundFloat t x ≤ (2 : K) ^ (Int.log 2 x + 1) := by
  obtain ⟨hlo, hhi⟩ := log_two_bounds x hx
  have hs : (0 : K) < (2 : K) ^ (Int.log 2 x - (t : ℤ)) := zpow_pos (by norm_num) _
  have hm1 : ((2 ^ t : ℤ) : K) ≤ x / (2 : K) ^ (Int.log 2 x - (t : ℤ)) := by
    rw [le_div_iff₀ hs, two_zpow_split]
    exact hlo
  have hm2 : x / (2 : K) ^ (Int.log 2 x - (t : ℤ)) ≤ ((2 ^ (t + 1) : ℤ) : K) := by
    rw [div_le_iff₀ hs]
    have := two_zpow_split (K := K) (t + 1) (Int.log 2 x + 1)
    have he : Int.log 2 x + 1 - ((t + 1 : ℕ) : ℤ) = Int.log 2 x - (t : ℤ) := by
      push_cast; ring
    rw [he] at this
    rw [this]
    exact hhi.le
  obtain ⟨hr1, hr2⟩ := roundTiesEven_bounds (x / (2 : K) ^ (Int.log 2 x - (t : ℤ)))
  have hz1 : ((2 ^ t : ℤ) : K) ≤ (roundTiesEven (x / (2 : K) ^ (Int.log 2 x - (t : ℤ))) : K) := by
    exact_mod_cast le_trans (Int.le_floor.mpr hm1) hr1
  have hz2 : (roundTiesEven (x / (2 : K) ^ (Int.log 2 x - (t : ℤ))) : K)
      ≤ ((2 ^ (t + 1) : ℤ) : K) := by
    exact_mod_cast le_trans hr2 (Int.ceil_le.mpr hm2)
  unfold roundFloat
  rw [if_neg (ne_of_gt hx), abs_of_pos hx]
  constructor
  · rw [← two_zpow_split (K := K) t (Int.log 2 x)]
    exact mul_le_mul_of_nonneg_right hz1 hs.le
  · have := two_zpow_split (K := K) (t + 1) (Int.log 2 x + 1)
    have he : Int.log 2 x + 1 - ((t + 1 : ℕ) : ℤ) = Int.log 2 x - (t : ℤ) := by
      push_cast; ring
    rw [he] at this
    rw [← this]
    exact mul_le_mul_of_nonneg_right hz2 hs.le

theorem roundFloat_pos {K : Type} [LinearOrderedField K] [FloorRing K] (t : Nat) (x : K)
    (hx : 0 < x) : 0 < roundFloat t x :=
  lt_of_lt_of_le (zpow_pos (by norm_num) _) (roundFloat_bounds t x hx).1

theorem roundFloat_nonneg {K : Type} [LinearOrderedField K] [FloorRing K] (t : Nat) (x : K)
    (hx : 0 ≤ x) : 0 ≤ roundFloat t x := by
  rcases hx.eq_or_lt with h | h
  · rw [← h]; simp [roundFloat]
  · exact (roundFloat_pos t x h).le

theorem roundFloat_zpow {K : Type} [LinearOrderedField K] [FloorRing K] (t : Nat) (k : ℤ) :
    roundFloat t ((2 : K) ^ k) = (2 : K) ^ k := by
  have hpos : (0 : K) < (2 : K) ^ k := zpow_pos (by norm_num) _
  have hlog : Int.log 2 ((2 : K) ^ k) = k := by
    have := Int.log_zpow (R := K) (b := 2) (by norm_num) k
    simpa using this
  have hm : (2 : K) ^ k / (2 : K) ^ (k - (t : ℤ)) = ((2 ^ t : ℤ) : K) := by
    rw [div_eq_iff (ne_of_gt (zpow_pos (by norm_num) _)), two_zpow_split]
  have hr : roundTiesEven (((2 ^ t : ℤ) : K)) = 2 ^ t :=
    roundTiesEven_of_lt_half _ _ le_rfl (by simp)
  unfold roundFloat
  rw [if_neg (ne_of_gt hpos), abs_of_pos hpos, hlog, hm, hr, two_zpow_split]

theorem roundFloat_one {K : Type} [LinearOrderedField K] [FloorRing K] (t : Nat) :
    roundFloat t (1 : K) = 1 := by
  simpa using roundFloat_zpow (K := K) t 0

theorem roundFloat_ge_one {K : Type} [LinearOrderedField K] [FloorRing K] (t : Nat) (x : K)
    (hx : 1 ≤ x) : 1 ≤ roundFloat t x := by
  have hpos : 0 < x := lt_of_lt_of_le one_pos hx
  have he : 0 ≤ Int.log 2 x := by
    have := (Int.zpow_le_iff_le_log (R := K) (b := 2) (by norm_num) (x := 0) hpos).mp
      (by simpa using hx)
    exact this
  exact le_trans (one_le_zpow₀ (by norm_num) he) (roundFloat_bounds t x hpos).1

theorem roundFloat_le_one {K : Type} [LinearOrderedField K] [FloorRing K] (t : Nat) (x : K)
    (hpos : 0 < x) (hx : x ≤ 1) : roundFloat t x ≤ 1 := by
  rcases hx.eq_or_lt with h | h
  · rw [h, roundFloat_one]
  · have he : Int.log 2 x < 0 :=
      (Int.lt_zpow_iff_log_lt (R := K) (b := 2) (by norm_num) (x := 0) hpos).mp
        (by simpa using h)
    exact le_trans (roundFloat_bounds t x hpos).2
      (zpow_le_one_of_nonpos₀ (by norm_num) (by omega))

/-- Adding to `1` a number below half a unit in the last place leaves `1`. -/
theorem roundFloat_one_add {K : Type} [LinearOrderedField K] [FloorRing K] (t : Nat) (ε : K)
    (h0 : 0 ≤ ε) (h : 2 * (ε * 2 ^ t) < 1) : roundFloat t (ε + 1) = 1 := by
  have hp : (1 : K) ≤ 2 ^ t := one_le_pow₀ (by norm_num)
  have hε : ε < 1 := by nlinarith
  have hpos : 0 < ε + 1 := by linarith
  have hlog : Int.log 2 (ε + 1) = 0 := by
    have h1 : 0 ≤ Int.log 2 (ε + 1) :=
      (Int.zpow_le_iff_le_log (R := K) (b := 2) (by norm_num) (x := 0) hpos).mp
        (by simp; linarith)
    have h2 : Int.log 2 (ε + 1) < 1 :=
      (Int.lt_zpow_iff_log_lt (R := K) (b := 2) (by norm_num) (x := 1) hpos).mp
        (by simp; linarith)
    omega
  have hm : (ε + 1) / (2 : K) ^ ((0 : ℤ) - (t : ℤ)) = (ε + 1) * 2 ^ t := by
    rw [zero_sub, zpow_neg, zpow_natCast, div_inv_eq_mul]
  have hr : roundTiesEven ((ε + 1) * (2 : K) ^ t) = 2 ^ t := by
    apply roundTiesEven_of_lt_half
    · push_cast
      nlinarith
    · push_cast
      nlinarith
  unfold roundFloat
  rw [if_neg (ne_of_gt hpos), abs_of_pos hpos, hlog, hm, hr, two_zpow_split]
  simp

theorem exp_neg_forty_small : Real.exp (-40) < (2 : ℝ) ^ (-(54 : ℤ)) := by
  have h1 : (2.7 : ℝ) < Real.exp 1 := lt_trans (by norm_num) Real.exp_one_gt_d9
  have h2 : Real.exp 40 = Real.exp 1 ^ 40 := by
    rw [← Real.exp_nat_mul]; norm_num
  have h3 : (2 : ℝ) ^ 54 < Real.exp 40 := by
    rw [h2]
    calc (2 : ℝ) ^ 54 < 2.7 ^ 40 := by norm_num
      _ < Real.exp 1 ^ 40 := pow_lt_pow_left₀ h1 (by norm_num) (by norm_num)
  have h4 : (2 : ℝ) ^ (54 : ℤ) = (2 : ℝ) ^ 54 := by norm_num
  rw [Real.exp_neg, zpow_neg, h4]
  exact inv_strictAnti₀ (by positivity) h3

/-! ## Logistic function: results -/

/-- The template kernel `GPULogisticApply` returns and writes `1 / (exp(-x) + 1)`,
computed in the arithmetic of the element type, for every input element `x`. -/
theorem GPULogisticApply_spec {α : Type} [One α] [Neg α] [Add α] [Div α] (exp : α → α)
    (input output : List α) (h : input.length = output.length) :
    ∃ res, Generic.GPULogisticApply exp input input.length output = .ok res ∧
      res.length = output.length ∧
      ∀ (i : Nat) (x : α), input[i]? = some x → res[i]? = some (1 / (exp (-x) + 1)) := by
  obtain ⟨res, hres, hlen, hpt, -⟩ := cudaLoop_elementwise_gen
    (fun i g => match input[i]? with
      | some x => 1 / (exp (-x) + 1)
      | none => g)
    (fun i out => do
      Generic.wr out i (1 / (exp (-(← Generic.rd input i)) + 1)))
    input.length output (le_of_eq h)
    (by
      intro i out g hi hlo _ _
      have hx : input[i]? = some input[i] := List.getElem?_eq_getElem hi
      simp only [rd_ok_gen hx, wr_ok_gen _ (show i < out.length by omega), run_ok_bind, hx])
  refine ⟨res, hres, hlen, ?_⟩
  intro i x hx
  have hi : i < input.length := (List.getElem?_eq_some.mp hx).1
  rw [hpt i _ hi (List.getElem?_eq_getElem (show i < output.length by omega))]
  simp only [hx]

/-- `LogisticApplyFunc` on tensors of equal size returns, at any element type. -/
theorem LogisticApplyFunc_spec {α : Type} [One α] [Neg α] [Add α] [Div α] (exp : α → α)
    (input output : Generic.GPUTensor α)
    (hin : input.WF) (hout : output.WF) (hsz : input.size = output.size) :
    ∃ res, Generic.LogisticApplyFunc exp input output = .ok res ∧
      res.shape = output.shape ∧ res.data.length = output.data.length ∧
      ∀ (i : Nat) (x : α), input.data[i]? = some x →
        res.data[i]? = some (1 / (exp (-x) + 1)) := by
  have hlen : input.data.length = output.data.length := by rw [hin, hout, hsz]
  obtain ⟨res, hres, hl, hpt⟩ := GPULogisticApply_spec exp input.data output.data hlen
  rw [hin] at hres
  refine ⟨{ output with data := res }, ?_, rfl, hl, hpt⟩
  simp only [Generic.LogisticApplyFunc, CHECK_EQ_ok hsz, hres, run_ok_bind, run_pure]

theorem logistic_range (x : ℝ) :
    0 < 1 / (Real.exp (-x) + 1) ∧ 1 / (Real.exp (-x) + 1) < 1 := by
  have hpos : 0 < Real.exp (-x) := Real.exp_pos _
  constructor
  · positivity
  · rw [div_lt_one (by linarith)]
    linarith

theorem BinaryFloat.val_logistic {t : Nat} {K : Type} [LinearOrderedField K] [FloorRing K]
    (e : BinaryFloat t K) :
    ((1 : BinaryFloat t K) / (e + 1)).val = roundFloat t (1 / roundFloat t (e.val + 1)) :=
  rfl

/-- In rounded arithmetic the logistic value of a non-negative `exp` lies in `[0, 1]`. -/
theorem logistic_rounded_range {t : Nat} {K : Type} [LinearOrderedField K] [FloorRing K]
    (e : BinaryFloat t K) (he : 0 ≤ e.val) :
    0 ≤ ((1 : BinaryFloat t K) / (e + 1)).val ∧ ((1 : BinaryFloat t K) / (e + 1)).val ≤ 1 := by
  rw [BinaryFloat.val_logistic]
  have hs : 1 ≤ roundFloat t (e.val + 1) := roundFloat_ge_one t _ (by linarith)
  have hq0 : 0 < 1 / roundFloat t (e.val + 1) := by positivity
  have hq1 : 1 / roundFloat t (e.val + 1) ≤ 1 := by
    rw [div_le_one (by linarith)]
    exact hs
  exact ⟨(roundFloat_pos t _ hq0).le, roundFloat_le_one t _ hq0 hq1⟩

/-- In rounded arithmetic the logistic value is exactly `1/2` when `exp` returns `1`. -/
theorem logistic_rounded_half {t : Nat} {K : Type} [LinearOrderedField K] [FloorRing K]
    (e : BinaryFloat t K) (he : e.val = 1) :
    ((1 : BinaryFloat t K) / (e + 1)).val = 1 / 2 := by
  rw [BinaryFloat.val_logistic, he]
  have h2 : roundFloat t ((1 : K) + 1) = 2 := by
    have := roundFloat_zpow (K := K) t 1
    rw [zpow_one] at this
    rw [one_add_one_eq_two]
    exact this
  have h3 : roundFloat t ((1 : K) / 2) = 1 / 2 := by
    have := roundFloat_zpow (K := K) t (-1)
    rw [zpow_neg, zpow_one, ← one_div] at this
    exact this
  rw [h2, h3]

/-- In rounded arithmetic with at most 52 fraction bits the logistic value is exactly `1`
when `exp` returns a value of at most `2^-54`. -/
theorem logistic_rounded_one {t : Nat} {K : Type} [LinearOrderedField K] [FloorRing K]
    (ht : t ≤ 52) (e : BinaryFloat t K) (h0 : 0 ≤ e.val) (h1 : e.val ≤ (2 : K) ^ (-(54 : ℤ))) :
    ((1 : BinaryFloat t K) / (e + 1)).val = 1 := by
  rw [BinaryFloat.val_logistic]
  have hp : (2 : K) ^ t ≤ 2 ^ 52 := pow_le_pow_right₀ (by norm_num) ht
  have hp0 : (0 : K) < 2 ^ t := by positivity
  have h54 : (2 : K) ^ (-(54 : ℤ)) * 2 ^ 52 = 1 / 4 := by
    rw [zpow_neg]
    norm_num
  have hsmall : 2 * (e.val * 2 ^ t) < 1 := by
    have : e.val * 2 ^ t ≤ (2 : K) ^ (-(54 : ℤ)) * 2 ^ 52 :=
      mul_le_mul h1 hp hp0.le (zpow_pos (by norm_num) _).le
    rw [h54] at this
    linarith
  rw [roundFloat_one_add t e.val h0 hsmall, div_one, roundFloat_one]

/-- The rounded value of `exp(-40)` is at most `2^-54`. -/
theorem exp_rounded_neg_forty (t : Nat) :
    0 ≤ (BinaryFloat.rounded Real.exp (-(⟨40⟩ : BinaryFloat t ℝ))).val ∧
    (BinaryFloat.rounded Real.exp (-(⟨40⟩ : BinaryFloat t ℝ))).val ≤ (2 : ℝ) ^ (-(54 : ℤ)) := by
  have hval : (BinaryFloat.rounded Real.exp (-(⟨40⟩ : BinaryFloat t ℝ))).val
      = roundFloat t (Real.exp (-40)) := rfl
  rw [hval]
  have hpos : 0 < Real.exp (-40) := Real.exp_pos _
  refine ⟨roundFloat_nonneg t _ hpos.le, ?_⟩
  have hlog : Int.log 2 (Real.exp (-40)) < -54 :=
    (Int.lt_zpow_iff_log_lt (R := ℝ) (b := 2) (by norm_num) hpos).mp
      (by simpa using exp_neg_forty_small)
  exact le_trans (roundFloat_bounds t _ hpos).2
    (zpow_le_zpow_right₀ (by norm_num) (by omega))

/-- Claim C14 as stated fails at the element types of the code.  In `double` arithmetic
(52 fraction bits) and in `float` arithmetic (23 fraction bits), with `exp` the rounded
exponential, the input `40` gives `exp(-40) + 1 = 1` and the output is exactly `1`, not
a value strictly below `1`. -/
theorem LogisticApply_is_one_at_forty :
    (∃ res, Generic.LogisticApplyFunc (BinaryFloat.rounded Real.exp)
        (⟨[1], [⟨40⟩], true⟩ : Generic.GPUTensor (BinaryFloat 52 ℝ)) ⟨[1], [⟨0⟩], true⟩
          = .ok res ∧
      ∃ y, res.data[0]? = some y ∧ y.val = 1 ∧ ¬ y.val < 1) ∧
    (∃ res, Generic.LogisticApplyFunc (BinaryFloat.rounded Real.exp)
        (⟨[1], [⟨40⟩], true⟩ : Generic.GPUTensor (BinaryFloat 23 ℝ)) ⟨[1], [⟨0⟩], true⟩
          = .ok res ∧
      ∃ y, res.data[0]? = some y ∧ y.val = 1 ∧ ¬ y.val < 1) := by
  constructor
  · obtain ⟨res, hres, -, -, hpt⟩ := LogisticApplyFunc_spec (BinaryFloat.rounded Real.exp)
      (⟨[1], [⟨40⟩], true⟩ : Generic.GPUTensor (BinaryFloat 52 ℝ)) ⟨[1], [⟨0⟩], true⟩
      (by decide) (by decide) (by decide)
    have h1 := logistic_rounded_one (le_refl 52) _ (exp_rounded_neg_forty 52).1
      (exp_rounded_neg_forty 52).2
    exact ⟨res, hres, _, hpt 0 ⟨40⟩ rfl, h1, by rw [h1]; exact lt_irrefl 1⟩
  · obtain ⟨res, hres, -, -, hpt⟩ := LogisticApplyFunc_spec (BinaryFloat.rounded Real.exp)
      (⟨[1], [⟨40⟩], true⟩ : Generic.GPUTensor (BinaryFloat 23 ℝ)) ⟨[1], [⟨0⟩], true⟩
      (by decide) (by decide) (by decide)
    have h1 := logistic_rounded_one (show 23 ≤ 52 by decide) _ (exp_rounded_neg_forty 23).1
      (exp_rounded_neg_forty 23).2
    exact ⟨res, hres, _, hpt 0 ⟨40⟩ rfl, h1, by rw [h1]; exact lt_irrefl 1⟩

/-- Claim C14, amended: `LogisticApply` computes `output[i] = 1 / (exp(-input[i]) + 1)` in
the arithmetic of the element type, and the call returns for tensors of equal size.
Over the real numbers the output is exactly `1/2` where the input is `0` and lies
strictly between `0` and `1` for every input.  In binary floating-point arithmetic with
`t` fraction bits, for a device `exp` that is never negative and returns `1` at `0`, the
output is exactly `1/2` where the input is `0` and lies in the closed interval
`[0, 1]` for every input. -/
theorem LogisticApply_exact_and_rounded (input output : Generic.GPUTensor ℝ) (t : Nat)
    (exp : BinaryFloat t ℝ → BinaryFloat t ℝ)
    (finput foutput : Generic.GPUTensor (BinaryFloat t ℝ))
    (hin : input.WF) (hout : output.WF) (hsz : input.size = output.size)
    (hfin : finput.WF) (hfout : foutput.WF) (hfsz : finput.size = foutput.size)
    (hexp : ∀ x, 0 ≤ (exp x).val) (hexp0 : (exp ⟨0⟩).val = 1) :
    (∃ res, Generic.LogisticApplyFunc Real.exp input output = .ok res ∧
      res.shape = output.shape ∧ res.data.length = output.data.length ∧
      ∀ (i : Nat) (x : ℝ), input.data[i]? = some x →
        res.data[i]? = some (1 / (Real.exp (-x) + 1)) ∧
        (x = 0 → res.data[i]? = some (1 / 2)) ∧
        ∃ y, res.data[i]? = some y ∧ 0 < y ∧ y < 1) ∧
    (∃ res, Generic.LogisticApplyFunc exp finput foutput = .ok res ∧
      res.shape = foutput.shape ∧ res.data.length = foutput.data.length ∧
      ∀ (i : Nat) (x : BinaryFloat t ℝ), finput.data[i]? = some x →
        res.data[i]? = some (1 / (exp (-x) + 1)) ∧
        (x.val = 0 → (1 / (exp (-x) + 1)).val = 1 / 2) ∧
        0 ≤ (1 / (exp (-x) + 1)).val ∧ (1 / (exp (-x) + 1)).val ≤ 1) := by
  constructor
  · obtain ⟨res, hres, hsh, hl, hpt⟩ := LogisticApplyFunc_spec Real.exp input output hin hout hsz
    refine ⟨res, hres, hsh, hl, ?_⟩
    intro i x hx
    refine ⟨hpt i x hx, ?_, _, hpt i x hx, logistic_range x⟩
    intro h0
    rw [hpt i x hx, h0]
    norm_num
  · obtain ⟨res, hres, hsh, hl, hpt⟩ := LogisticApplyFunc_spec exp finput foutput hfin hfout hfsz
    refine ⟨res, hres, hsh, hl, ?_⟩
    intro i x hx
    refine ⟨hpt i x hx, ?_, logistic_rounded_range _ (hexp _)⟩
    intro h0
    have hneg : -x = (⟨0⟩ : BinaryFloat t ℝ) := by
      show (⟨-x.val⟩ : BinaryFloat t ℝ) = ⟨0⟩
      rw [h0, neg_zero]
    rw [hneg]
    exact logistic_rounded_half _ hexp0

/-- Instance of the amended claim C14 on the real input `[0, 1]` and on the `double` input
`[0, 40]` with the rounded exponential as the device `exp`. -/
theorem LogisticApply_exact_and_rounded_witness :
    (∃ res, Generic.LogisticApplyFunc Real.exp ⟨[2], [0, 1], true⟩ ⟨[2], [9, 9], true⟩
        = .ok res ∧
      res.shape = [2] ∧ res.data.length = 2 ∧
      ∀ (i : Nat) (x : ℝ), ([0, 1] : List ℝ)[i]? = some x →
        res.data[i]? = some (1 / (Real.exp (-x) + 1)) ∧
        (x = 0 → res.data[i]? = some (1 / 2)) ∧
        ∃ y, res.data[i]? = some y ∧ 0 < y ∧ y < 1) ∧
    (∃ res, Generic.LogisticApplyFunc (BinaryFloat.rounded Real.exp)
        (⟨[2], [⟨0⟩, ⟨40⟩], true⟩ : Generic.GPUTensor (BinaryFloat 52 ℝ))
        ⟨[2], [⟨9⟩, ⟨9⟩], true⟩ = .ok res ∧
      res.shape = [2] ∧ res.data.length = 2 ∧
      ∀ (i : Nat) (x : BinaryFloat 52 ℝ),
        ([⟨0⟩, ⟨40⟩] : List (BinaryFloat 52 ℝ))[i]? = some x →
        res.data[i]? = some (1 / (BinaryFloat.rounded Real.exp (-x) + 1)) ∧
        (x.val = 0 → (1 / (BinaryFloat.rounded Real.exp (-x) + 1)).val = 1 / 2) ∧
        0 ≤ (1 / (BinaryFloat.rounded Real.exp (-x) + 1)).val ∧
        (1 / (BinaryFloat.rounded Real.exp (-x) + 1)).val ≤ 1) :=
  LogisticApply_exact_and_rounded ⟨[2], [0, 1], true⟩ ⟨[2], [9, 9], true⟩ 52
    (BinaryFloat.rounded Real.exp) ⟨[2], [⟨0⟩, ⟨40⟩], true⟩ ⟨[2], [⟨9⟩, ⟨9⟩], true⟩
    (by decide) (by decide) (by decide) (by decide) (by decide) (by decide)
    (fun x => roundFloat_nonneg 52 _ (Real.exp_pos _).le)
    (by
      show roundFloat 52 (Real.exp 0) = 1
      rw [Real.exp_zero, roundFloat_one])

/-! ## Binary cross entropy over the reals -/

/-- The template kernel `GPUCrossEntropyBinaryApply`, started on a zeroed accumulator,
returns the buffer of the per-element losses. -/
theorem GPUCrossEntropyBinaryApply_spec_gen {α : Type} [Field α] (safeLog : α → α)
    (input target : List α) (h : target.length = input.length) :
    Generic.GPUCrossEntropyBinaryApply safeLog input target input.length
        (List.replicate input.length 0)
      = .ok (List.zipWith
          (fun x t => -safeLog x * t - safeLog (1 - x) * (1 - t)) input target) := by
  obtain ⟨res, hres, hlen, hpt, -⟩ := cudaLoop_elementwise_gen
    (fun i acc => acc + (-safeLog (input.getD i 0) * target.getD i 0
      - safeLog (1 - input.getD i 0) * (1 - target.getD i 0)))
    (fun i sum => do
      let safe_input := safeLog (← Generic.rd input i)
      let safe_inverse_input := safeLog (1 - (← Generic.rd input i))
      let acc ← Generic.rd sum i
      let t ← Generic.rd target i
      Generic.wr sum i (acc + (-safe_input * t - safe_inverse_input * (1 - t))))
    input.length (List.replicate input.length 0) (by simp)
    (by
      intro i out g hi hlen _ hg
      have hit : i < target.length := by omega
      have hio : i < out.length := by simpa [hlen] using hi
      simp only [rd_ok_gen (getD_eq_gen hi), rd_ok_gen hg, rd_ok_gen (getD_eq_gen hit),
        wr_ok_gen _ hio, run_ok_bind])
  have hlist : res = List.zipWith
      (fun x t => -safeLog x * t - safeLog (1 - x) * (1 - t)) input target := by
    apply List.ext_getElem?
    intro j
    by_cases hj : j < input.length
    · have hjt : j < target.length := by omega
      rw [hpt j 0 hj (by simp [hj]), List.getElem?_zipWith,
        List.getElem?_eq_getElem hj, List.getElem?_eq_getElem hjt]
      simp [List.getD, List.getElem?_eq_getElem hj, List.getElem?_eq_getElem hjt]
    · rw [List.getElem?_eq_none (by simp at hlen; omega),
        List.getElem?_eq_none (by simp [List.length_zipWith]; omega)]
  rw [← hlist]
  exact hres

/-- Claim C15: `CrossEntropyBinaryApply` is not degenerate.  Over the real numbers, for
a non-empty tensor shape, when every element of the input and of the target is `1/2`
and the safe logarithm agrees with the natural logarithm at `1/2`, the call returns
`size * log 2 / shape[0]`, which is strictly greater than `0`. -/
theorem CrossEntropyBinaryApply_not_degenerate (safeLog : ℝ → ℝ)
    (input target : Generic.GPUTensor ℝ) (N : Nat) (rest : List Nat)
    (hin : input.WF) (hta : target.WF) (hshape : target.shape = input.shape)
    (hs : input.shape = N :: rest) (hne : 0 < input.size)
    (hi : ∀ x ∈ input.data, x = 1 / 2) (ht : ∀ t ∈ target.data, t = 1 / 2)
    (hL : safeLog (1 / 2) = Real.log (1 / 2)) :
    ∃ loss, Generic.CrossEntropyBinaryApplyFunc safeLog input target = .ok loss ∧
      loss = (input.size : ℝ) * Real.log 2 / (N : ℝ) ∧ 0 < loss := by
  have hlen : target.data.length = input.data.length := by
    rw [hin, hta, Generic.GPUTensor.size, Generic.GPUTensor.size, hshape]
  have hk := GPUCrossEntropyBinaryApply_spec_gen safeLog input.data target.data hlen
  rw [hin] at hk
  have hz : (Generic.GPUTensor.zeros input.shape : Generic.GPUTensor ℝ).data
      = List.replicate input.size 0 := rfl
  have h0 : Generic.shape0 input = .ok N := by simp [Generic.shape0, hs]
  have hN : 0 < N := by
    rcases Nat.eq_zero_or_pos N with h | h
    · rw [Generic.GPUTensor.size, hs, h] at hne
      simp at hne
    · exact h
  have hi2 : input.data = List.replicate input.size (1 / 2) :=
    List.eq_replicate_iff.mpr ⟨hin, hi⟩
  have ht2 : target.data = List.replicate input.size (1 / 2) :=
    List.eq_replicate_iff.mpr ⟨by rw [hlen, hin], ht⟩
  have hlog : Real.log (1 / 2) = -Real.log 2 := by
    rw [one_div, Real.log_inv]
  have hsum : (List.zipWith (fun x t => -safeLog x * t - safeLog (1 - x) * (1 - t))
      input.data target.data).sum = (input.size : ℝ) * Real.log 2 := by
    rw [hi2, ht2, List.zipWith_replicate, Nat.min_self, List.sum_replicate, nsmul_eq_mul]
    have h12 : (1 : ℝ) - 1 / 2 = 1 / 2 := by norm_num
    rw [h12, hL, hlog]
    ring
  have hlog2 : 0 < Real.log 2 := Real.log_pos (by norm_num)
  refine ⟨(input.size : ℝ) * Real.log 2 / (N : ℝ), ?_, rfl, ?_⟩
  · simp only [Generic.CrossEntropyBinaryApplyFunc, hz, hk, h0, run_ok_bind, run_pure,
      Generic.reduce, hsum]
  · have h1 : (0 : ℝ) < input.size := by exact_mod_cast hne
    have h2 : (0 : ℝ) < N := by exact_mod_cast hN
    positivity

/-- Instance of claim C15 on tensors of shape `[2, 2]` with the natural logarithm as the
safe logarithm. -/
theorem CrossEntropyBinaryApply_not_degenerate_witness :
    ∃ loss, Generic.CrossEntropyBinaryApplyFunc Real.log
        ⟨[2, 2], [1 / 2, 1 / 2, 1 / 2, 1 / 2], true⟩
        ⟨[2, 2], [1 / 2, 1 / 2, 1 / 2, 1 / 2], true⟩ = .ok loss ∧
      loss = ((Generic.GPUTensor.size
          (⟨[2, 2], [1 / 2, 1 / 2, 1 / 2, 1 / 2], true⟩ : Generic.GPUTensor ℝ) : Nat) : ℝ)
        * Real.log 2 / ((2 : Nat) : ℝ) ∧ 0 < loss :=
  CrossEntropyBinaryApply_not_degenerate Real.log
    ⟨[2, 2], [1 / 2, 1 / 2, 1 / 2, 1 / 2], true⟩ ⟨[2, 2], [1 / 2, 1 / 2, 1 / 2, 1 / 2], true⟩
    2 [2] (by decide) (by decide) (by decide) (by decide) (by decide)
    (by intro x hx; simpa using hx) (by intro x hx; simpa using hx) rfl

/-! ## Softmax: results -/

/-- The first inner loop of `GPUSoftmaxApply` writes `exp(input)` over row `i`, leaves
the other rows as they were and returns the sum of the row it wrote. -/
theorem softmax_exp_loop {α : Type} [Field α] (exp : α → α) (input out : List α)
    (dim i : Nat) (hin : ∀ j, j < dim → i * dim + j < input.length)
    (hout : ∀ j, j < dim → i * dim + j < out.length) :
    ∃ st, forLoop 0 dim (fun j (st : List α × α) => do
          let index := i * dim + j
          let out ← Generic.wr st.1 index (exp (← Generic.rd input index))
          pure (out, st.2 + (← Generic.rd out index))) (out, 0) = .ok st ∧
      st.1.length = out.length ∧
      st.2 = ∑ k ∈ Finset.range dim, exp (input.getD (i * dim + k) 0) ∧
      (∀ j, j < dim → st.1[i * dim + j]? = some (exp (input.getD (i * dim + j) 0))) ∧
      (∀ idx : Nat, idx < i * dim ∨ i * dim + dim ≤ idx → st.1[idx]? = out[idx]?) := by
  refine forLoop_post
    (fun k (st : List α × α) => st.1.length = out.length ∧
      st.2 = ∑ j ∈ Finset.range k, exp (input.getD (i * dim + j) 0) ∧
      (∀ j, j < k → st.1[i * dim + j]? = some (exp (input.getD (i * dim + j) 0))) ∧
      (∀ idx : Nat, idx < i * dim ∨ i * dim + k ≤ idx → st.1[idx]? = out[idx]?))
    _ 0 dim _ _ (Nat.zero_le _)
    ⟨rfl, by simp, by intro j hj; omega, fun _ _ => rfl⟩ ?_ (fun st h => h)
  rintro k ⟨o, acc⟩ - hk ⟨hlen, hacc, hdone, hrest⟩
  simp only at hlen hacc hdone hrest
  have hko : i * dim + k < o.length := by rw [hlen]; exact hout k hk
  have hnew : (o.set (i * dim + k) (exp (input.getD (i * dim + k) 0)))[i * dim + k]?
      = some (exp (input.getD (i * dim + k) 0)) := by
    simp [List.getElem?_set, hko]
  refine ⟨(o.set (i * dim + k) (exp (input.getD (i * dim + k) 0)),
    acc + exp (input.getD (i * dim + k) 0)), ?_, by simp [hlen], ?_, ?_, ?_⟩
  · simp only [rd_ok_gen (getD_eq_gen (hin k hk)), wr_ok_gen _ hko, rd_ok_gen hnew,
      run_ok_bind, run_pure]
  · simp only [hacc, Finset.sum_range_succ]
  · intro j hj
    by_cases hjk : j = k
    · subst hjk; exact hnew
    · simp only [List.getElem?_set_ne (show i * dim + k ≠ i * dim + j by omega)]
      exact hdone j (by omega)
  · intro idx hidx
    simp only [List.getElem?_set_ne (show i * dim + k ≠ idx by omega)]
    exact hrest idx (by omega)

/-- The second inner loop of `GPUSoftmaxApply` divides row `i` by `sum` and leaves the
other rows as they were. -/
theorem softmax_div_loop {α : Type} [Field α] (out1 : List α) (dim i : Nat) (sum : α)
    (hout : ∀ j, j < dim → i * dim + j < out1.length) :
    ∃ out2, forLoop 0 dim (fun j out => do
          Generic.wr out (i * dim + j) ((← Generic.rd out (i * dim + j)) / sum)) out1
        = .ok out2 ∧
      out2.length = out1.length ∧
      (∀ (j : Nat) (v : α), j < dim → out1[i * dim + j]? = some v →
        out2[i * dim + j]? = some (v / sum)) ∧
      (∀ idx : Nat, idx < i * dim ∨ i * dim + dim ≤ idx → out2[idx]? = out1[idx]?) := by
  refine forLoop_post
    (fun k (o : List α) => o.length = out1.length ∧
      (∀ (j : Nat) (v : α), j < k → out1[i * dim + j]? = some v →
        o[i * dim + j]? = some (v / sum)) ∧
      (∀ idx : Nat, idx < i * dim ∨ i * dim + k ≤ idx → o[idx]? = out1[idx]?))
    _ 0 dim _ _ (Nat.zero_le _)
    ⟨rfl, by intro j v hj; omega, fun _ _ => rfl⟩ ?_ (fun o h => h)
  rintro k o - hk ⟨hlen, hdone, hrest⟩
  have hk1 : i * dim + k < out1.length := hout k hk
  have hko : i * dim + k < o.length := by rw [hlen]; exact hk1
  have hcur : o[i * dim + k]? = some out1[i * dim + k] := by
    rw [hrest _ (Or.inr le_rfl)]
    exact List.getElem?_eq_getElem hk1
  refine ⟨o.set (i * dim + k) (out1[i * dim + k] / sum), ?_, by simp [hlen], ?_, ?_⟩
  · simp only [rd_ok_gen hcur, wr_ok_gen _ hko, run_ok_bind]
  · intro j v hj hv
    by_cases hjk : j = k
    · subst hjk
      rw [List.getElem?_eq_getElem hk1] at hv
      cases hv
      simp [List.getElem?_set, hko]
    · simp only [List.getElem?_set_ne (show i * dim + k ≠ i * dim + j by omega)]
      exact hdone j v (by omega) hv
  · intro idx hidx
    simp only [List.getElem?_set_ne (show i * dim + k ≠ idx by omega)]
    exact hrest idx (by omega)

/-- The template kernel `GPUSoftmaxApply` returns and writes, for every row `i` and
column `j`, `exp(input[i, j])` divided by the sum of `exp` over row `i`. -/
theorem GPUSoftmaxApply_spec {α : Type} [Field α] (exp : α → α) (input output : List α)
    (N dim : Nat) (hin : input.length = N * dim) (hout : output.length = N * dim) :
    ∃ res, Generic.GPUSoftmaxApply exp input N dim output = .ok res ∧
      res.length = N * dim ∧
      ∀ i j : Nat, i < N → j < dim →
        res[i * dim + j]? = some (exp (input.getD (i * dim + j) 0)
          / ∑ k ∈ Finset.range dim, exp (input.getD (i * dim + k) 0)) := by
  unfold Generic.GPUSoftmaxApply cudaLoop
  refine forLoop_post
    (fun n (o : List α) => o.length = N * dim ∧
      ∀ r j : Nat, r < n → j < dim →
        o[r * dim + j]? = some (exp (input.getD (r * dim + j) 0)
          / ∑ k ∈ Finset.range dim, exp (input.getD (r * dim + k) 0)))
    _ 0 N _ _ (Nat.zero_le _) ⟨hout, by intro r j hr; omega⟩ ?_ ?_
  · rintro n o - hn ⟨hlen, hdone⟩
    have hb : ∀ j, j < dim → n * dim + j < N * dim := fun j hj => row_index_lt hn hj
    obtain ⟨st, hst, hl1, hsum, hrow1, hrest1⟩ := softmax_exp_loop exp input o dim n
      (fun j hj => by rw [hin]; exact hb j hj) (fun j hj => by rw [hlen]; exact hb j hj)
    obtain ⟨o2, ho2, hl2, hrow2, hrest2⟩ := softmax_div_loop st.1 dim n st.2
      (fun j hj => by rw [hl1, hlen]; exact hb j hj)
    refine ⟨o2, ?_, by rw [hl2, hl1, hlen], ?_⟩
    · simp only [hst, run_ok_bind, ho2]
    · intro r j hr hj
      by_cases hrn : r = n
      · subst hrn
        rw [hrow2 j _ hj (hrow1 j hj), hsum]
      · have hlt : r * dim + j < n * dim := row_index_lt (by omega) hj
        rw [hrest2 _ (Or.inl hlt), hrest1 _ (Or.inl hlt)]
        exact hdone r j (by omega) hj
  · rintro o ⟨hlen, hdone⟩
    exact ⟨hlen, hdone⟩

/-- Claim C13: `SoftmaxApply` normalizes each row, over the real numbers.  For an input
of shape `[num_sample, dim]` with `dim >= 1` and an output of the same size, a call that
returns (it does when `num_sample >= 1`) leaves in every output element
`exp(input[i, j])` divided by the sum over `k` of `exp(input[i, k])`, and every output
row sums to `1`. -/
theorem SoftmaxApply_normalizes (input output : Generic.GPUTensor ℝ) (N dim : Nat)
    (hin : input.WF) (hout : output.WF) (hsz : input.size = output.size)
    (hs : input.shape = [N, dim]) (hd : 1 ≤ dim) :
    (1 ≤ N → ∃ res, Generic.SoftmaxApplyFunc Real.exp input output = .ok res) ∧
    ∀ res, Generic.SoftmaxApplyFunc Real.exp input output = .ok res →
      res.shape = output.shape ∧ res.data.length = N * dim ∧
      (∀ i j : Nat, i < N → j < dim →
        res.data[i * dim + j]? = some (Real.exp (input.data.getD (i * dim + j) 0)
          / ∑ k ∈ Finset.range dim, Real.exp (input.data.getD (i * dim + k) 0))) ∧
      (∀ i : Nat, i < N → ∑ j ∈ Finset.range dim, res.data.getD (i * dim + j) 0 = 1) := by
  have hsize : input.size = N * dim := by simp [Generic.GPUTensor.size, hs]
  have h0 : Generic.shape0 input = .ok N := by simp [Generic.shape0, hs]
  rcases Nat.eq_zero_or_pos N with hN0 | hN
  · subst hN0
    have herr : Generic.SoftmaxApplyFunc Real.exp input output = .error .divzero := by
      simp [Generic.SoftmaxApplyFunc, CHECK_EQ_ok hsz, h0, udiv]
    refine ⟨fun h => absurd h (by decide), ?_⟩
    intro res hres
    rw [herr] at hres
    cases hres
  · obtain ⟨r, hr, hl, hp⟩ := GPUSoftmaxApply_spec Real.exp input.data output.data N dim
      (by rw [hin, hsize]) (by rw [hout, ← hsz, hsize])
    have hdiv : udiv input.size N = .ok dim := by
      rw [udiv_ok hN, hsize, Nat.mul_div_cancel_left dim hN]
    have hf : Generic.SoftmaxApplyFunc Real.exp input output
        = .ok { output with data := r } := by
      simp only [Generic.SoftmaxApplyFunc, CHECK_EQ_ok hsz, h0, hdiv, hr, run_ok_bind,
        run_pure]
    refine ⟨fun _ => ⟨_, hf⟩, ?_⟩
    intro res hres
    rw [hf] at hres
    cases hres
    refine ⟨rfl, hl, hp, ?_⟩
    intro i hi
    have hS : 0 < ∑ k ∈ Finset.range dim, Real.exp (input.data.getD (i * dim + k) 0) :=
      Finset.sum_pos (fun k _ => Real.exp_pos _) (Finset.nonempty_range_iff.mpr (by omega))
    have hterm : ∀ j ∈ Finset.range dim, r.getD (i * dim + j) 0
        = Real.exp (input.data.getD (i * dim + j) 0)
          / ∑ k ∈ Finset.range dim, Real.exp (input.data.getD (i * dim + k) 0) := by
      intro j hj
      have := hp i j hi (Finset.mem_range.mp hj)
      simp [List.getD, this]
    show ∑ j ∈ Finset.range dim, r.getD (i * dim + j) 0 = 1
    rw [Finset.sum_congr rfl hterm, ← Finset.sum_div, div_self (ne_of_gt hS)]

/-- Instance of claim C13 on the real input `[[0, 0]]`: the call returns, both output
elements are `1/2` and the row sums to `1`. -/
theorem SoftmaxApply_normalizes_witness :
    ∃ res, Generic.SoftmaxApplyFunc Real.exp ⟨[1, 2], [0, 0], true⟩ ⟨[1, 2], [9, 9], true⟩
        = .ok res ∧
      res.data[0]? = some (1 / 2) ∧ res.data[1]? = some (1 / 2) ∧
      ∑ j ∈ Finset.range 2, res.data.getD (0 * 2 + j) 0 = 1 := by
  have h := SoftmaxApply_normalizes ⟨[1, 2], [0, 0], true⟩ ⟨[1, 2], [9, 9], true⟩ 1 2
    (by decide) (by decide) (by decide) (by decide) (by decide)
  obtain ⟨res, hres⟩ := h.1 (by decide)
  obtain ⟨-, -, hp, hrow⟩ := h.2 res hres
  refine ⟨res, hres, ?_, ?_, hrow 0 (by decide)⟩
  · have := hp 0 0 (by decide) (by decide)
    simp only [Nat.zero_mul, Nat.zero_add] at this
    rw [this]
    norm_num [Finset.sum_range_succ]
  · have := hp 0 1 (by decide) (by decide)
    simp only [Nat.zero_mul, Nat.zero_add] at this
    rw [this]
    norm_num [Finset.sum_range_succ]

end Blitz
